import Mathlib

/-!
Verification development for the `gmail_ingestor` pipeline.

This file gives a shallow embedding, in Lean 4, of the core of the
`gmail_ingestor` repository:

* `storage/tracker.py` (`FetchTracker`): the SQLite message store is modelled
  as a list of `MessageRecord` in `created_at` order (rows are appended with a
  strictly increasing logical clock, so list order coincides with the
  `ORDER BY created_at` order used by the queries).
* `core/gmail_client.py` (`GmailClient.fetch_messages_batch`): the batch
  transport is modelled by an oracle giving, for each attempt number, the
  outcome of the whole batch call (a transport exception or a per-id
  sub-request outcome), as reported through the googleapiclient callback.
* `core/converter.py` (`MarkdownConverter`): the external `trafilatura.extract`
  collaborator is modelled by an oracle `String → Option (Option String)`
  (`none` = the call raised, `some none` = it returned `None`,
  `some (some s)` = it returned the string `s`).
* `storage/writer.py` (`MarkdownWriter._slugify`): Python's
  `unicodedata.normalize("NFKD", ·)` is modelled by an oracle
  `String → String`; the subsequent `encode("ascii","ignore")`, regexes and
  truncation are embedded exactly.
* `pipeline/ingestor.py` (`EmailIngestor`): discovery, fetch and convert
  stages and the top-level `run`, over the tracker model.  Filesystem reads in
  the convert stage are an oracle `String → Option String` and
  `datetime.fromisoformat` is an oracle `String → Option PyDateTime`
  (`none` = `ValueError`).

Status updates are instrumented with a ghost event log (`Event`): each row
creation and each status write performed by `UPDATE messages SET status = ...`
appends one event recording the previous and the new status.  The event log
has no influence on the computation; it only makes the status state machine
provable.
-/

namespace GmailIngestor

/-! ## Python-side primitive models -/

/-- Model of Python's exceptions, as far as the embedded code distinguishes
them.  `GmailIngestorError` is the base class of `RateLimitError`,
`ApiError` in the spec's taxonomy is the plain `GmailIngestorError` raised by
the client on non-rate-limit failures. -/
inductive PyExc where
  | conversionError (msg : String)
  | attributeError (msg : String)
  deriving Repr, DecidableEq

/-- Errors raised by `GmailClient` (`core/exceptions.py`): `RateLimitError`
is a subclass of `GmailIngestorError`; a bare `GmailIngestorError` is the
spec's `ApiError`. -/
inductive ClientError where
  | rateLimitError (msg : String)
  | apiError (msg : String)
  deriving Repr, DecidableEq

/-- Error message text of a `ClientError`, as `str(e)` would render it. -/
def ClientError.text : ClientError → String
  | .rateLimitError m => m
  | .apiError m => m

/-- Python truthiness of an optional string (`None` and `""` are falsy). -/
def truthy : Option String → Bool
  | none => false
  | some s => s ≠ ""

/-! ## Data model (`core/models.py`) -/

/-- Minimal model of `datetime.datetime`: only identity matters to the claims,
never arithmetic. -/
structure PyDateTime where
  year : Nat
  month : Nat
  day : Nat
  hour : Nat
  minute : Nat
  second : Nat
  deriving Repr, DecidableEq

/-- The epoch default `datetime(1970, 1, 1)` used throughout the pipeline. -/
def epochDT : PyDateTime := ⟨1970, 1, 1, 0, 0, 0⟩

/-- `MessageStub` from `core/models.py`. -/
structure MessageStub where
  message_id : String
  thread_id : String
  deriving Repr, DecidableEq

/-- `EmailHeader` from `core/models.py`.  Note: it has NO `label_names` or
`label_ids` fields; `MarkdownConverter._build_front_matter` nevertheless reads
`header.label_names`, which raises `AttributeError` at run time. -/
structure EmailHeader where
  subject : String
  sender : String
  «to» : String
  date : PyDateTime
  cc : String := ""
  message_id_header : String := ""
  deriving Repr, DecidableEq

/-- `EmailBody` from `core/models.py`. -/
structure EmailBody where
  plain_text : Option String := none
  html : Option String := none
  deriving Repr, DecidableEq

/-- `ConvertedEmail` from `core/models.py`. -/
structure ConvertedEmail where
  message_id : String
  markdown : String
  header : EmailHeader
  deriving Repr, DecidableEq

/-- `FetchProgress` from `core/models.py`. -/
structure FetchProgress where
  total_estimated : Nat := 0
  ids_discovered : Nat := 0
  messages_fetched : Nat := 0
  messages_converted : Nat := 0
  messages_failed : Nat := 0
  current_stage : String := "idle"
  deriving Repr, DecidableEq

/-! ## `MarkdownWriter._slugify` (`storage/writer.py`)

Python code:
```
text = unicodedata.normalize("NFKD", text).encode("ascii", "ignore").decode("ascii")
text = re.sub(r"[^\w\s-]", "", text.lower())
text = re.sub(r"[-\s]+", "-", text).strip("-")
return text[:max_length] if text else "untitled"
```
`unicodedata.normalize("NFKD", ·)` is an oracle parameter `nfkd` (it is the
identity on ASCII input); everything after it is embedded exactly.  After the
`encode("ascii","ignore")` step the string is pure ASCII, so the ASCII
readings of `\w`, `\s` and `str.lower` below coincide with Python's. -/

/-- ASCII code points, i.e. the characters surviving
`encode("ascii", "ignore")`. -/
def isAsciiCp (c : Char) : Bool := c.toNat ≤ 127

/-- Python's `\s` class restricted to ASCII. -/
def pyIsSpace (c : Char) : Bool :=
  c = ' ' || c = '\t' || c = '\n' || c = '\x0d' || c = '\x0b' || c = '\x0c'

/-- Python's `\w` class restricted to ASCII: alphanumerics and underscore. -/
def pyIsWordChar (c : Char) : Bool := c.isAlphanum || c = '_'

/-- Characters kept by `re.sub(r"[^\w\s-]", "", ·)`. -/
def keepSlugChar (c : Char) : Bool := pyIsWordChar c || pyIsSpace c || c = '-'

/-- `re.sub(r"[-\s]+", "-", ·)`: every maximal run of hyphens/whitespace
becomes a single hyphen.  The boolean records whether the previous character
belonged to such a run. -/
def collapseDashRuns : Bool → List Char → List Char
  | _, [] => []
  | inRun, c :: rest =>
    if pyIsSpace c || c = '-' then
      if inRun then collapseDashRuns true rest
      else '-' :: collapseDashRuns true rest
    else c :: collapseDashRuns false rest

/-- Python's `str.strip("-")`: drop leading and trailing hyphens. -/
def stripDashes (l : List Char) : List Char :=
  ((l.dropWhile (· = '-')).reverse.dropWhile (· = '-')).reverse

/-- The slug computation on the character list of the NFKD-normalized input. -/
def slugifyChars (l : List Char) (maxLength : Nat) : List Char :=
  let t1 := l.filter isAsciiCp
  let t2 := t1.map Char.toLower
  let t3 := t2.filter keepSlugChar
  let t4 := collapseDashRuns false t3
  let t5 := stripDashes t4
  if t5 = [] then "untitled".data else t5.take maxLength

/-- `MarkdownWriter._slugify(text, max_length)`, with the NFKD normalizer as
an oracle. -/
def slugify (nfkd : String → String) (text : String) (maxLength : Nat) : String :=
  String.mk (slugifyChars (nfkd text).data maxLength)

/-! ## `MarkdownConverter` (`core/converter.py`) -/

/-- `MarkdownConverter._convert_body`, with `trafilatura.extract` as the
oracle `extract` (`none` = the call raised and the `except` branch set
`result = None`; `some r` = the call returned `r`).  The guards mirror
Python truthiness: an empty or absent `html` skips extraction, and the
plain-text fallback fires only when `result is None` and `plain_text` is
truthy. -/
def convert_body (extract : String → Option (Option String)) (body : EmailBody) :
    Option String :=
  let result : Option String :=
    if truthy body.html then
      match extract (body.html.getD "") with
      | none => none
      | some r => r
    else none
  if result = none && truthy body.plain_text then body.plain_text else result

/-- `MarkdownConverter._build_front_matter`.  The code builds the
subject/from/to/date lines and the optional `cc` line, and then evaluates
`if header.label_names:`.  `EmailHeader` (`core/models.py`) has no
`label_names` attribute, so this access raises `AttributeError`
unconditionally; the partially built lines are discarded. -/
def build_front_matter (_h : EmailHeader) : Except PyExc String :=
  .error (.attributeError "'EmailHeader' object has no attribute 'label_names'")

/-- `MarkdownConverter.convert`: body conversion first (raising
`ConversionError` when it yields nothing), then the front-matter block, then
the assembled `ConvertedEmail`. -/
def convert (extract : String → Option (Option String)) (message_id : String)
    (header : EmailHeader) (body : EmailBody) : Except PyExc ConvertedEmail :=
  match convert_body extract body with
  | none => .error (.conversionError ("No convertible content for message " ++ message_id))
  | some markdown_body =>
    match build_front_matter header with
    | .error e => .error e
    | .ok front_matter =>
      .ok ⟨message_id, front_matter ++ "\n" ++ markdown_body, header⟩

/-! ## `FetchTracker` (`storage/tracker.py`)

The `messages` table is a list of `MessageRecord` in insertion order; the
logical clock stands for `datetime.now(UTC).isoformat()` and increases
strictly between commits, so insertion order is `created_at` order and the
`ORDER BY created_at LIMIT ? OFFSET ?` queries are drop/take on the filtered
list. -/

/-- One row of the `messages` table. -/
structure MessageRecord where
  message_id : String
  thread_id : String
  label_id : String
  status : String
  subject : String := ""
  sender : String := ""
  date : String := ""
  raw_text_path : String := ""
  raw_html_path : String := ""
  markdown_path : String := ""
  error_message : String := ""
  created_at : Nat
  updated_at : Nat
  deriving Repr, DecidableEq

/-- The `messages` table. -/
abbrev Store := List MessageRecord

/-- `VALID_STATUSES` from `storage/tracker.py`. -/
def VALID_STATUSES : List String := ["pending", "fetched", "converted", "failed"]

/-- The optional keyword arguments of `FetchTracker.update_status`; `""` is
the Python default meaning "do not overwrite". -/
structure UpdateFields where
  subject : String := ""
  sender : String := ""
  date : String := ""
  raw_text_path : String := ""
  raw_html_path : String := ""
  markdown_path : String := ""
  error_message : String := ""
  deriving Repr, DecidableEq

/-- The `SET` clause built by `update_status`: `status` and `updated_at`
always; each optional column only when the supplied value is truthy. -/
def applyUpdate (r : MessageRecord) (now : Nat) (status : String) (f : UpdateFields) :
    MessageRecord :=
  { r with
    status := status
    updated_at := now
    subject := if f.subject ≠ "" then f.subject else r.subject
    sender := if f.sender ≠ "" then f.sender else r.sender
    date := if f.date ≠ "" then f.date else r.date
    raw_text_path := if f.raw_text_path ≠ "" then f.raw_text_path else r.raw_text_path
    raw_html_path := if f.raw_html_path ≠ "" then f.raw_html_path else r.raw_html_path
    markdown_path := if f.markdown_path ≠ "" then f.markdown_path else r.markdown_path
    error_message := if f.error_message ≠ "" then f.error_message else r.error_message }

/-- The `UPDATE messages ... WHERE message_id = ?` statement: rewrites the
matching row (if any) and leaves every other row untouched. -/
def update_status_store (store : Store) (now : Nat) (message_id status : String)
    (f : UpdateFields) : Store :=
  store.map fun r => if r.message_id = message_id then applyUpdate r now status f else r

/-- Error raised by `FetchTracker.update_status` on an unknown status
(`raise ValueError(f"Invalid status: ...")`; the spec names it
`InvalidStatus`). -/
inductive TrackerError where
  | invalidStatus (msg : String)
  deriving Repr, DecidableEq

/-- `FetchTracker.update_status`: validates the status before touching the
table, then runs the single `UPDATE ... WHERE message_id = ?`. -/
def update_status (store : Store) (now : Nat) (message_id status : String)
    (f : UpdateFields) : Except TrackerError Store :=
  if status ∈ VALID_STATUSES then
    .ok (update_status_store store now message_id status f)
  else
    .error (.invalidStatus ("Invalid status: " ++ status))

/-- `FetchTracker.get_message`: `SELECT * WHERE message_id = ?`, first row. -/
def get_message (store : Store) (message_id : String) : Option MessageRecord :=
  store.find? (fun r => r.message_id = message_id)

/-- `FetchTracker.get_pending_ids(limit, offset)`:
`WHERE status = 'pending' ORDER BY created_at LIMIT ? OFFSET ?`. -/
def get_pending_ids (store : Store) (limit offset : Nat) : List String :=
  ((((store.filter (fun r => r.status = "pending")).map
    (fun r => r.message_id)).drop offset).take limit)

/-- `FetchTracker.get_fetched_ids(limit, offset)`. -/
def get_fetched_ids (store : Store) (limit offset : Nat) : List String :=
  ((((store.filter (fun r => r.status = "fetched")).map
    (fun r => r.message_id)).drop offset).take limit)

/-- `FetchTracker.count_by_status`: `SELECT status, COUNT(*) GROUP BY status`
as an association list over the distinct statuses present. -/
def count_by_status (store : Store) : List (String × Nat) :=
  ((store.map (fun r => r.status)).dedup).map
    (fun s => (s, (store.filter (fun r => r.status = s)).length))

/-- The total of all counters reported by `count_by_status`. -/
def countTotal (store : Store) : Nat :=
  (count_by_status store).foldl (fun a p => a + p.2) 0

/-- `FetchTracker.retry_failed`: one `UPDATE` moving every `failed` row to
`pending`, clearing its error message; returns the affected-row count. -/
def retry_failed (store : Store) (now : Nat) : Store × Nat :=
  (store.map fun r =>
    if r.status = "failed" then
      { r with status := "pending", error_message := "", updated_at := now }
    else r,
   (store.filter (fun r => r.status = "failed")).length)

/-- A fresh `messages` row as inserted by `insert_pending` /
`bulk_insert_pending`. -/
def newPendingRecord (now : Nat) (message_id thread_id label_id : String) :
    MessageRecord :=
  { message_id := message_id
    thread_id := thread_id
    label_id := label_id
    status := "pending"
    created_at := now
    updated_at := now }

/-- Ghost record of one row mutation: `old = none` is a row creation. -/
structure Event where
  id : String
  old : Option String
  new : String
  deriving Repr, DecidableEq

/-- `executemany("INSERT OR IGNORE INTO messages ...")` over the stubs, also
returning the number of newly created rows (`cursor.rowcount` counts only the
rows actually inserted) and the ghost creation events. -/
def bulk_insert_aux (now : Nat) (label_id : String) :
    Store → List (String × String) → Store × Nat × List Event
  | store, [] => (store, 0, [])
  | store, (msg_id, thread_id) :: rest =>
    if store.any (fun r => r.message_id = msg_id) then
      bulk_insert_aux now label_id store rest
    else
      let out := bulk_insert_aux now label_id
        (store ++ [newPendingRecord now msg_id thread_id label_id]) rest
      (out.1, out.2.1 + 1, ⟨msg_id, none, "pending"⟩ :: out.2.2)

/-- `FetchTracker.bulk_insert_pending(stubs, label_id)`. -/
def bulk_insert_pending (store : Store) (now : Nat) (stubs : List (String × String))
    (label_id : String) : Store × Nat :=
  let out := bulk_insert_aux now label_id store stubs
  (out.1, out.2.1)

/-! ## `GmailClient.fetch_messages_batch` (`core/gmail_client.py`)

The per-message processing the fetch stage performs on one raw Gmail payload
(parse → raw store → tracker fields) is summarized at the tracker interface:
a payload either yields the metadata written to the tracker (`FetchMeta`) or
makes the per-message `try` block raise with some message.  The transport is
an oracle giving each attempt's outcome. -/

/-- The tracker-visible data extracted from one successfully processed raw
message (header fields and the raw-store paths). -/
structure FetchMeta where
  subject : String := ""
  sender : String := ""
  date : String := ""
  raw_text_path : String := ""
  raw_html_path : String := ""
  deriving Repr, DecidableEq

/-- One raw Gmail API message payload, as the fetch stage consumes it:
`id` is `raw_msg.get("id", "")`; `outcome` is what the per-message `try`
block does with the payload (`.ok` = parsed and stored, `.error e` =
raised with `str(ex) = e`). -/
structure RawMessage where
  id : String
  outcome : Except String FetchMeta

/-- Outcome of one sub-request of a batch, as delivered to the
`BatchHttpRequest` callback: a response payload, or an exception that is or
is not a rate-limit signal (`_is_rate_limit_error`). -/
inductive SubOutcome where
  | success (outcome : Except String FetchMeta)
  | failure (isRateLimit : Bool) (msg : String)

/-- Outcome of one whole `batch.execute()` call: the transport itself raised
(rate-limit or not), or the batch completed and each sub-request's callback
fired with the given outcome.  A sub-request for message id `i` that
succeeds returns the message `i` itself, hence the result payload built by
`attemptResults` carries the requested id. -/
inductive BatchAttemptOutcome where
  | transportError (isRateLimit : Bool) (msg : String)
  | completed (respond : String → SubOutcome)

/-- The `results` list accumulated by the callback: one entry per successful
sub-request, in the order the sub-requests were added (the order of
`message_ids`). -/
def attemptResults (ids : List String) (respond : String → SubOutcome) :
    List RawMessage :=
  ids.filterMap fun i =>
    match respond i with
    | .success outcome => some ⟨i, outcome⟩
    | .failure _ _ => none

/-- Whether any sub-request callback of a completed batch reported a
rate-limit exception. -/
def anySubRateLimited (ids : List String) (respond : String → SubOutcome) : Bool :=
  ids.any fun i =>
    match respond i with
    | .failure true _ => true
    | _ => false

/-- The `rate_limited` flag after one attempt: set by a rate-limiting
transport exception or by any rate-limited sub-request. -/
def attemptRateLimited (ids : List String) : BatchAttemptOutcome → Bool
  | .transportError isRL _ => isRL
  | .completed respond => anySubRateLimited ids respond

/-- The message of the `RateLimitError` raised when batch retries are
exhausted. -/
def rateLimitExhaustedMsg (maxRetries : Nat) : String :=
  "Rate limited during batch fetch after " ++ toString maxRetries ++ " retries"

/-- Result of one `fetch_messages_batch` call, instrumented with the number
of attempts made and, per attempt, the list of sub-requests issued (the
code re-adds every message id to a fresh `BatchHttpRequest` on each
attempt). -/
structure BatchCall where
  result : Except ClientError (List RawMessage)
  attemptsMade : Nat
  issued : List (List String)

/-- The `for attempt in range(max_retries + 1)` loop of
`fetch_messages_batch`; `a` is the attempt index, the fuel is the number of
loop iterations left, and the fuel-exhausted case is the unreachable
`raise RateLimitError` after the loop. -/
def fetchBatchGo (ids : List String) (attempts : Nat → BatchAttemptOutcome)
    (maxRetries : Nat) : Nat → Nat → BatchCall
  | a, 0 => ⟨.error (.rateLimitError (rateLimitExhaustedMsg maxRetries)), a, []⟩
  | a, fuel + 1 =>
    match attempts a with
    | .transportError false m =>
      ⟨.error (.apiError ("Batch request failed: " ++ m)), a + 1, [ids]⟩
    | .transportError true _ =>
      if maxRetries ≤ a then
        ⟨.error (.rateLimitError (rateLimitExhaustedMsg maxRetries)), a + 1, [ids]⟩
      else
        let out := fetchBatchGo ids attempts maxRetries (a + 1) fuel
        ⟨out.result, out.attemptsMade, ids :: out.issued⟩
    | .completed respond =>
      if anySubRateLimited ids respond then
        if maxRetries ≤ a then
          ⟨.error (.rateLimitError (rateLimitExhaustedMsg maxRetries)), a + 1, [ids]⟩
        else
          let out := fetchBatchGo ids attempts maxRetries (a + 1) fuel
          ⟨out.result, out.attemptsMade, ids :: out.issued⟩
      else
        ⟨.ok (attemptResults ids respond), a + 1, [ids]⟩

/-- `GmailClient.fetch_messages_batch(message_ids)` with retry policy
`max_retries`, driven by the per-attempt transport oracle. -/
def fetch_messages_batch (maxRetries : Nat) (ids : List String)
    (attempts : Nat → BatchAttemptOutcome) : BatchCall :=
  fetchBatchGo ids attempts maxRetries 0 (maxRetries + 1)

/-! ## Pipeline state (`pipeline/ingestor.py`) -/

/-- One row of the `fetch_runs` audit table. -/
structure FetchRun where
  run_id : Nat
  label_id : String
  started_at : Nat
  completed_at : Option Nat := none
  ids_discovered : Nat := 0
  messages_fetched : Nat := 0
  messages_converted : Nat := 0
  messages_failed : Nat := 0
  deriving Repr, DecidableEq

/-- The whole mutable state an `EmailIngestor` run touches: the tracker's two
tables, the logical clock, the in-process progress object, and the ghost
event log. -/
structure StageState where
  store : Store
  runs : List FetchRun
  clock : Nat
  progress : FetchProgress
  events : List Event

/-- The state of a freshly created database and ingestor. -/
def initState : StageState :=
  { store := [], runs := [], clock := 0, progress := {}, events := [] }

/-- Ghost event generated by one `update_status` call: present row → one
status-transition event; absent row → the `UPDATE` matches nothing and no
event is generated. -/
def eventsOfUpdate (store : Store) (id status : String) : List Event :=
  match get_message store id with
  | some r => [⟨id, some r.status, status⟩]
  | none => []

/-- A `tracker.update_status(id, status, ...)` call as the stages perform it.
The stages only pass one of the four literal statuses, for which
`update_status` returns `.ok` of exactly `update_status_store` (theorem
`update_status_valid`); the wrapper advances the clock past the commit and
logs the ghost event. -/
def stUpdate (st : StageState) (id status : String) (f : UpdateFields) : StageState :=
  { st with
    store := update_status_store st.store st.clock id status f
    clock := st.clock + 1
    events := st.events ++ eventsOfUpdate st.store id status }

/-- A `tracker.bulk_insert_pending(stubs, label)` call performed by the
discovery stage, which also advances `progress.ids_discovered` by the number
of stubs passed (not the number inserted). -/
def stBulkInsert (st : StageState) (stubs : List (String × String)) (label : String) :
    StageState × Nat :=
  let out := bulk_insert_aux st.clock label st.store stubs
  ({ st with
      store := out.1
      clock := st.clock + 1
      events := st.events ++ out.2.2
      progress :=
        { st.progress with ids_discovered := st.progress.ids_discovered + stubs.length } },
   out.2.1)

/-- A `tracker.retry_failed()` call (`EmailIngestor.retry_failed`). -/
def stRetry (st : StageState) : StageState :=
  { st with
    store := (retry_failed st.store st.clock).1
    clock := st.clock + 1
    events := st.events ++ st.store.filterMap fun r =>
      if r.status = "failed" then some ⟨r.message_id, some "failed", "pending"⟩ else none }

/-- Set `progress.current_stage`. -/
def setStage (st : StageState) (s : String) : StageState :=
  { st with progress := { st.progress with current_stage := s } }

/-- Increment `progress.messages_fetched`. -/
def bumpFetched (st : StageState) : StageState :=
  { st with progress :=
      { st.progress with messages_fetched := st.progress.messages_fetched + 1 } }

/-- Increment `progress.messages_converted`. -/
def bumpConverted (st : StageState) : StageState :=
  { st with progress :=
      { st.progress with messages_converted := st.progress.messages_converted + 1 } }

/-- Increment `progress.messages_failed`. -/
def bumpFailed (st : StageState) : StageState :=
  { st with progress :=
      { st.progress with messages_failed := st.progress.messages_failed + 1 } }

/-! ## Discovery stage (`EmailIngestor.run_discovery`) -/

/-- `limit is not None and total_collected >= limit`. -/
def limitReached (limit : Option Nat) (collected : Nat) : Bool :=
  match limit with
  | none => false
  | some l => l ≤ collected

/-- The `for stub in page` loop: threads `total_seen` and `total_collected`,
skips the first `offset` stubs seen, collects the rest into
`stubs_to_insert`, and breaks as soon as the limit check (run after each
collection) fires.  Returns (stubs to insert, seen, collected, broke). -/
def pageScan (offset : Nat) (limit : Option Nat) :
    List MessageStub → Nat → Nat → List MessageStub × Nat × Nat × Bool
  | [], seen, collected => ([], seen, collected, false)
  | stub :: rest, seen, collected =>
    let seen1 := seen + 1
    if seen1 ≤ offset then pageScan offset limit rest seen1 collected
    else
      let collected1 := collected + 1
      if limitReached limit collected1 then ([stub], seen1, collected1, true)
      else
        let out := pageScan offset limit rest seen1 collected1
        (stub :: out.1, out.2.1, out.2.2.1, out.2.2.2)

/-- Result of a discovery stage call, instrumented with the list of stubs
collected (post-offset, pre-limit) and the number of pages requested from
the generator.  `raised = some e` means a page request raised `e` out of the
stage after the recorded state mutations. -/
structure DiscoveryOut where
  state : StageState
  totalNew : Nat
  collected : List MessageStub
  pagesRequested : Nat
  raised : Option ClientError

/-- The `for page in client.discover_message_ids(...)` loop.  Pulling the
next list element is one page request; an `.error` element is that request
raising out of `_execute_with_retry`. -/
def discoveryGo (label : String) (limit : Option Nat) (offset : Nat) :
    List (Except ClientError (List MessageStub)) → Nat → Nat → Nat → Nat →
    List MessageStub → StageState → DiscoveryOut
  | [], _, _, totalNew, pagesReq, collAcc, st =>
    ⟨st, totalNew, collAcc, pagesReq, none⟩
  | .error e :: _, _, _, totalNew, pagesReq, collAcc, st =>
    ⟨st, totalNew, collAcc, pagesReq + 1, some e⟩
  | .ok page :: rest, seen, collected, totalNew, pagesReq, collAcc, st =>
    let scan := pageScan offset limit page seen collected
    let toInsert := scan.1
    let step :=
      if toInsert.isEmpty then (st, 0)
      else stBulkInsert st (toInsert.map fun s => (s.message_id, s.thread_id)) label
    let totalNew1 := totalNew + step.2
    let collAcc1 := collAcc ++ toInsert
    if limitReached limit scan.2.2.1 then
      ⟨step.1, totalNew1, collAcc1, pagesReq + 1, none⟩
    else
      discoveryGo label limit offset rest scan.2.1 scan.2.2.1 totalNew1 (pagesReq + 1)
        collAcc1 step.1

/-- `EmailIngestor.run_discovery(label, query, limit, offset)` over the page
sequence the client yields. -/
def run_discovery (label : String) (pages : List (Except ClientError (List MessageStub)))
    (limit : Option Nat) (offset : Nat) (st : StageState) : DiscoveryOut :=
  discoveryGo label limit offset pages 0 0 0 0 [] (setStage st "discovery")

/-! ## Fetch stage (`EmailIngestor.run_fetch_pending`) -/

/-- `remaining <= 0` guard of the batch loops. -/
def limitExhausted (limit : Option Nat) (total : Nat) : Bool :=
  match limit with
  | none => false
  | some l => l ≤ total

/-- `query_limit`: the batch size, shrunk to the remaining quota when a limit
is given. -/
def queryLimitFor (limit : Option Nat) (batchSize total : Nat) : Nat :=
  match limit with
  | none => batchSize
  | some l => min batchSize (l - total)

/-- The body of `for raw_msg in raw_messages`: on success update the row to
`fetched` with the extracted metadata and remember the id in `fetched_ids`;
on any exception mark the row `failed` with the exception text.  The
accumulator is (state, fetched_ids, total_fetched). -/
def processOne (acc : StageState × List String × Nat) (raw : RawMessage) :
    StageState × List String × Nat :=
  match raw.outcome with
  | .ok meta =>
    let st := stUpdate acc.1 raw.id "fetched"
      { subject := meta.subject, sender := meta.sender, date := meta.date,
        raw_text_path := meta.raw_text_path, raw_html_path := meta.raw_html_path }
    (bumpFetched st, acc.2.1 ++ [raw.id], acc.2.2 + 1)
  | .error e =>
    let st := stUpdate acc.1 raw.id "failed" { error_message := e }
    (bumpFailed st, acc.2.1, acc.2.2)

/-- Process all returned raw messages of one batch. -/
def processRaws (st : StageState) (raws : List RawMessage) (totalFetched : Nat) :
    StageState × List String × Nat :=
  raws.foldl processOne (st, [], totalFetched)

/-- The body of the trailing `for msg_id in pending_ids` loop: a requested id
absent from `fetched_ids` is marked `failed` ("Not returned in batch
response") when its row is missing or still `pending`. -/
def markLeftover (fetchedIds : List String) (st : StageState) (msg_id : String) :
    StageState :=
  if msg_id ∈ fetchedIds then st
  else
    match get_message st.store msg_id with
    | none =>
      bumpFailed (stUpdate st msg_id "failed"
        { error_message := "Not returned in batch response" })
    | some r =>
      if r.status = "pending" then
        bumpFailed (stUpdate st msg_id "failed"
          { error_message := "Not returned in batch response" })
      else st

/-- Mark every requested id absent from the batch response. -/
def markLeftovers (st : StageState) (pending_ids fetchedIds : List String) : StageState :=
  pending_ids.foldl (markLeftover fetchedIds) st

/-- The `while True` loop of `run_fetch_pending`.  The transport oracle
`attempts` takes the loop-iteration index then the attempt index.  A
`GmailIngestorError` from `fetch_messages_batch` is logged and breaks the
loop (it does NOT propagate).  The fuel starts above the number of pending
rows, which bounds the number of non-empty iterations. -/
def fetchLoop (attempts : Nat → Nat → BatchAttemptOutcome) (maxRetries : Nat)
    (limit : Option Nat) (offset batchSize : Nat) :
    Nat → Nat → Nat → StageState → StageState × Nat
  | 0, _, totalFetched, st => (st, totalFetched)
  | fuel + 1, callIdx, totalFetched, st =>
    if limitExhausted limit totalFetched then (st, totalFetched)
    else
      let pending_ids :=
        get_pending_ids st.store (queryLimitFor limit batchSize totalFetched) offset
      if pending_ids.isEmpty then (st, totalFetched)
      else
        match (fetch_messages_batch maxRetries pending_ids (attempts callIdx)).result with
        | .error _ => (st, totalFetched)
        | .ok raws =>
          let out := processRaws st raws totalFetched
          let st2 := markLeftovers out.1 pending_ids out.2.1
          fetchLoop attempts maxRetries limit offset batchSize fuel (callIdx + 1)
            out.2.2 st2

/-- `EmailIngestor.run_fetch_pending(limit, offset, batch_size)`. -/
def run_fetch_pending (attempts : Nat → Nat → BatchAttemptOutcome) (maxRetries : Nat)
    (limit : Option Nat) (offset batchSize : Nat) (st : StageState) : StageState × Nat :=
  let st0 := setStage st "fetch"
  fetchLoop attempts maxRetries limit offset batchSize (st0.store.length + 1) 0 0 st0

/-! ## Convert stage (`EmailIngestor.run_convert_pending`) -/

/-- `str(e)` of the exceptions the convert stage catches. -/
def PyExc.text : PyExc → String
  | .conversionError m => m
  | .attributeError m => m

/-- `strftime` zero-padded two-digit field. -/
def pad2 (n : Nat) : String := if n < 10 then "0" ++ toString n else toString n

/-- `strftime` zero-padded four-digit `%Y`. -/
def pad4 (n : Nat) : String :=
  if n < 10 then "000" ++ toString n
  else if n < 100 then "00" ++ toString n
  else if n < 1000 then "0" ++ toString n
  else toString n

/-- `date.strftime("%Y-%m-%d")`. -/
def fmtYmd (d : PyDateTime) : String :=
  pad4 d.year ++ "-" ++ pad2 d.month ++ "-" ++ pad2 d.day

/-- The file name `MarkdownWriter.write` builds:
`{date}_{slug}_{first 8 chars of id}.md`. -/
def writer_filename (nfkd : String → String) (e : ConvertedEmail) : String :=
  fmtYmd e.header.date ++ "_" ++ slugify nfkd e.header.subject 50 ++ "_"
    ++ e.message_id.take 8 ++ ".md"

/-- `MarkdownWriter.write`: returns the path written under the markdown
root. -/
def writer_write (nfkd : String → String) (output_dir : String) (e : ConvertedEmail) :
    String :=
  output_dir ++ "/" ++ writer_filename nfkd e

/-- The per-id body of the convert loop: rebuild the body from the raw paths
(a falsy path or a missing file leaves that part `None`), rebuild a minimal
header (empty or unparseable dates fall back to the epoch), convert, write,
and mark `converted`; on any exception mark `failed` with the exception
text.  `fs` models `Path.exists`/`read_text` (`none` = missing file),
`parseIso` models `datetime.fromisoformat` (`none` = `ValueError`). -/
def convertOne (fs : String → Option String) (extract : String → Option (Option String))
    (parseIso : String → Option PyDateTime) (nfkd : String → String) (mdDir : String)
    (acc : StageState × Nat) (msg_id : String) : StageState × Nat :=
  match get_message acc.1.store msg_id with
  | none => acc
  | some msg_record =>
    let plain_text := if msg_record.raw_text_path ≠ "" then fs msg_record.raw_text_path else none
    let html := if msg_record.raw_html_path ≠ "" then fs msg_record.raw_html_path else none
    let body : EmailBody := ⟨plain_text, html⟩
    let date :=
      if msg_record.date = "" then epochDT else (parseIso msg_record.date).getD epochDT
    let header : EmailHeader :=
      { subject := msg_record.subject, sender := msg_record.sender, «to» := "", date := date }
    match convert extract msg_id header body with
    | .ok converted =>
      let filepath := writer_write nfkd mdDir converted
      (bumpConverted (stUpdate acc.1 msg_id "converted" { markdown_path := filepath }),
       acc.2 + 1)
    | .error e =>
      (bumpFailed (stUpdate acc.1 msg_id "failed" { error_message := e.text }), acc.2)

/-- The `while True` loop of `run_convert_pending`. -/
def convertLoop (fs : String → Option String) (extract : String → Option (Option String))
    (parseIso : String → Option PyDateTime) (nfkd : String → String) (mdDir : String)
    (limit : Option Nat) (offset batchSize : Nat) :
    Nat → Nat → StageState → StageState × Nat
  | 0, totalConverted, st => (st, totalConverted)
  | fuel + 1, totalConverted, st =>
    if limitExhausted limit totalConverted then (st, totalConverted)
    else
      let fetched_ids :=
        get_fetched_ids st.store (queryLimitFor limit batchSize totalConverted) offset
      if fetched_ids.isEmpty then (st, totalConverted)
      else
        let out := fetched_ids.foldl (convertOne fs extract parseIso nfkd mdDir)
          (st, totalConverted)
        convertLoop fs extract parseIso nfkd mdDir limit offset batchSize fuel out.2 out.1

/-- `EmailIngestor.run_convert_pending(limit, offset, batch_size)`. -/
def run_convert_pending (fs : String → Option String)
    (extract : String → Option (Option String)) (parseIso : String → Option PyDateTime)
    (nfkd : String → String) (mdDir : String) (limit : Option Nat)
    (offset batchSize : Nat) (st : StageState) : StageState × Nat :=
  let st0 := setStage st "convert"
  convertLoop fs extract parseIso nfkd mdDir limit offset batchSize
    (st0.store.length + 1) 0 st0

/-! ## Full run (`EmailIngestor.run`) -/

/-- `FetchTracker.start_run(label)`: appends a `fetch_runs` row and returns
its autoincremented id. -/
def start_run (st : StageState) (label : String) : StageState × Nat :=
  let run_id := st.runs.length + 1
  ({ st with
      runs := st.runs ++ [{ run_id := run_id, label_id := label, started_at := st.clock }]
      clock := st.clock + 1 },
   run_id)

/-- `FetchTracker.complete_run(run_id, **counters)` with the counters read
from the progress object, as `EmailIngestor.run`'s `finally` block does. -/
def complete_run (st : StageState) (run_id : Nat) : StageState :=
  { st with
    runs := st.runs.map fun r =>
      if r.run_id = run_id then
        { r with
          completed_at := some st.clock
          ids_discovered := st.progress.ids_discovered
          messages_fetched := st.progress.messages_fetched
          messages_converted := st.progress.messages_converted
          messages_failed := st.progress.messages_failed }
      else r
    clock := st.clock + 1 }

/-- `EmailIngestor.run(label, query, limit, offset, batch_size)`: brackets
the three stages in one audit run record.  `limit`/`offset` are passed only
to discovery; fetch and convert get only the batch size.  A `ClientError`
raised inside discovery propagates after the `except` block stamps the
error stage marker and the `finally` block completes the audit row; a
`ClientError` inside the fetch stage's batch call is absorbed there (see
`fetchLoop`), so the run completes normally. -/
def runPipeline (label : String) (pages : List (Except ClientError (List MessageStub)))
    (attempts : Nat → Nat → BatchAttemptOutcome) (maxRetries : Nat)
    (fs : String → Option String) (extract : String → Option (Option String))
    (parseIso : String → Option PyDateTime) (nfkd : String → String) (mdDir : String)
    (limit : Option Nat) (offset batchSize : Nat) (st : StageState) :
    Except ClientError FetchProgress × StageState :=
  let started := start_run st label
  let run_id := started.2
  let st0 := { started.1 with progress := { current_stage := "discovery" } }
  let d := run_discovery label pages limit offset st0
  match d.raised with
  | some e =>
    let stE := setStage d.state ("error: " ++ e.text)
    (.error e, complete_run stE run_id)
  | none =>
    let f := run_fetch_pending attempts maxRetries none 0 batchSize d.state
    let c := run_convert_pending fs extract parseIso nfkd mdDir none 0 batchSize f.1
    let stC := setStage c.1 "complete"
    (.ok stC.progress, complete_run stC run_id)

/-! ## Pipeline operations (for the status state machine) -/

/-- One operation of the pipeline as the spec's state machine sees it:
a discovery insertion pass, a fetch stage call, a convert stage call, or the
operator retry.  Each carries the external-world oracles it consumes. -/
inductive PipelineOp where
  | discover (pages : List (Except ClientError (List MessageStub))) (label : String)
      (limit : Option Nat) (offset : Nat)
  | fetchStage (attempts : Nat → Nat → BatchAttemptOutcome) (maxRetries : Nat)
      (limit : Option Nat) (offset batchSize : Nat)
  | convertStage (fs : String → Option String) (extract : String → Option (Option String))
      (parseIso : String → Option PyDateTime) (nfkd : String → String) (mdDir : String)
      (limit : Option Nat) (offset batchSize : Nat)
  | operatorRetry

/-- Apply one pipeline operation to the state. -/
def applyOp (st : StageState) : PipelineOp → StageState
  | .discover pages label limit offset => (run_discovery label pages limit offset st).state
  | .fetchStage attempts maxRetries limit offset batchSize =>
    (run_fetch_pending attempts maxRetries limit offset batchSize st).1
  | .convertStage fs extract parseIso nfkd mdDir limit offset batchSize =>
    (run_convert_pending fs extract parseIso nfkd mdDir limit offset batchSize st).1
  | .operatorRetry => stRetry st

/-- Run a sequence of pipeline operations from the empty store. -/
def applyOps (ops : List PipelineOp) : StageState := ops.foldl applyOp initState

/-- The transitions the spec's state machine allows: row creation as
`pending`, `pending → fetched`, `pending → failed`, `fetched → converted`,
`fetched → failed`, and the operator retry `failed → pending`. -/
def AllowedEvent (e : Event) : Prop :=
  (e.old = none ∧ e.new = "pending") ∨
  (e.old = some "pending" ∧ e.new = "fetched") ∨
  (e.old = some "pending" ∧ e.new = "failed") ∨
  (e.old = some "fetched" ∧ e.new = "converted") ∨
  (e.old = some "fetched" ∧ e.new = "failed") ∨
  (e.old = some "failed" ∧ e.new = "pending")

instance (e : Event) : Decidable (AllowedEvent e) := by
  unfold AllowedEvent; infer_instance

/-- The status column of the row with the given message id, if tracked. -/
def statusOf (store : Store) (id : String) : Option String :=
  (get_message store id).map fun r => r.status

/-- Well-formedness the `message_id TEXT PRIMARY KEY` constraint gives the
`messages` table: ids are pairwise distinct. -/
def StoreWF (store : Store) : Prop :=
  (store.map fun r => r.message_id).Nodup

/-- The inductive invariant of the pipeline state: distinct ids, only the
four known statuses, every logged transition allowed by the state machine,
and every tracked row owning a creation event (it was inserted as
`pending`). -/
def GoodState (st : StageState) : Prop :=
  StoreWF st.store ∧
  (∀ r ∈ st.store, r.status ∈ VALID_STATUSES) ∧
  (∀ e ∈ st.events, AllowedEvent e) ∧
  (∀ r ∈ st.store, (⟨r.message_id, none, "pending"⟩ : Event) ∈ st.events)

/-- Total number of stubs in a discovery page sequence. -/
def pagesTotal (pages : List (List MessageStub)) : Nat :=
  (pages.map List.length).sum

/-- The audit row for `run_id` was finalized: `completed_at` is stamped and
the counters equal the progress counters of the final state. -/
def auditFinalized (st : StageState) (run_id : Nat) : Prop :=
  ∃ r ∈ st.runs, r.run_id = run_id ∧ r.completed_at ≠ none ∧
    r.ids_discovered = st.progress.ids_discovered ∧
    r.messages_fetched = st.progress.messages_fetched ∧
    r.messages_converted = st.progress.messages_converted ∧
    r.messages_failed = st.progress.messages_failed

/-! # Theorems

First the tracker-level lemmas, then one theorem (plus witness or
counterexample) per claim. -/

/-- `update_status` on one of the four statuses passes validation and runs
exactly the single `UPDATE`. -/
theorem update_status_valid (store : Store) (now : Nat) (id status : String)
    (f : UpdateFields) (h : status ∈ VALID_STATUSES) :
    update_status store now id status f
      = .ok (update_status_store store now id status f) := by
  simp [update_status, h]

/-- `applyUpdate` never touches the primary key. -/
theorem applyUpdate_message_id (r : MessageRecord) (now : Nat) (s : String)
    (f : UpdateFields) : (applyUpdate r now s f).message_id = r.message_id := rfl

/-- The branches of the `UPDATE` row function never touch the primary key. -/
theorem updateRow_message_id (r : MessageRecord) (now : Nat) (id s : String)
    (f : UpdateFields) :
    (if r.message_id = id then applyUpdate r now s f else r).message_id
      = r.message_id := by
  by_cases h : r.message_id = id <;> simp [h, applyUpdate_message_id]

/-- The `UPDATE` statement preserves the table's id column. -/
theorem update_status_store_ids (store : Store) (now : Nat) (id s : String)
    (f : UpdateFields) :
    (update_status_store store now id s f).map (fun r => r.message_id)
      = store.map (fun r => r.message_id) := by
  unfold update_status_store
  rw [List.map_map]
  exact List.map_congr_left fun r _ => updateRow_message_id r now id s f

/-- Row lookup after the `UPDATE`: the found row (if any) is the same row,
rewritten when and only when it is the targeted one. -/
theorem get_message_update_map (store : Store) (now : Nat) (id s : String)
    (f : UpdateFields) (j : String) :
    get_message (update_status_store store now id s f) j
      = (get_message store j).map fun r =>
          if r.message_id = id then applyUpdate r now s f else r := by
  induction store with
  | nil => rfl
  | cons r rest ih =>
    unfold get_message update_status_store at ih ⊢
    simp only [List.map_cons]
    by_cases h : r.message_id = j
    · rw [List.find?_cons_of_pos _ (by simp only [updateRow_message_id]; simpa using h),
        List.find?_cons_of_pos _ (by simpa using h)]
      simp
    · rw [List.find?_cons_of_neg _ (by simp only [updateRow_message_id]; simpa using h),
        List.find?_cons_of_neg _ (by simpa using h)]
      exact ih

/-- Looking up the updated id after the `UPDATE`. -/
theorem get_message_update_self (store : Store) (now : Nat) (id s : String)
    (f : UpdateFields) :
    get_message (update_status_store store now id s f) id
      = (get_message store id).map fun r => applyUpdate r now s f := by
  rw [get_message_update_map]
  cases h : get_message store id with
  | none => rfl
  | some r =>
    have := List.find?_some h
    simp only [Option.map_some']
    rw [if_pos (by simpa using this)]

/-- Looking up any other id after the `UPDATE`: untouched. -/
theorem get_message_update_other (store : Store) (now : Nat) (id s j : String)
    (f : UpdateFields) (hne : j ≠ id) :
    get_message (update_status_store store now id s f) j = get_message store j := by
  rw [get_message_update_map]
  cases h : get_message store j with
  | none => rfl
  | some r =>
    have hj : r.message_id = j := by simpa using List.find?_some h
    simp only [Option.map_some']
    rw [if_neg (by rw [hj]; exact hne)]

/-- C7: `updateStatus` with a status outside the four known values always
fails with `InvalidStatus` (Python: `raise ValueError(f"Invalid status: ...")`
before any SQL runs), and no updated store is ever produced — in this pure
embedding the only way a call mutates the table is through the `.ok` store it
returns, so the second conjunct is exactly "no field, including `updated_at`,
changes". -/
theorem C7_update_status_invalid (store : Store) (now : Nat) (id status : String)
    (f : UpdateFields) (h : status ∉ VALID_STATUSES) :
    update_status store now id status f
        = .error (.invalidStatus ("Invalid status: " ++ status)) ∧
      ∀ store', update_status store now id status f ≠ .ok store' := by
  refine ⟨by simp [update_status, h], fun store' hok => ?_⟩
  rw [update_status, if_neg h] at hok
  exact Except.noConfusion hok

/-- Witness for C7 at a concrete tracked message and the unknown status
`"bogus"`. -/
theorem C7_witness :
    ("bogus" ∉ VALID_STATUSES) ∧
      update_status [newPendingRecord 0 "m1" "t1" "L"] 1 "m1" "bogus" {}
        = .error (.invalidStatus "Invalid status: bogus") := by
  refine ⟨by decide, ?_⟩
  exact (C7_update_status_invalid [newPendingRecord 0 "m1" "t1" "L"] 1 "m1" "bogus" {}
    (by decide)).1

/-- C10: `updateStatus` on an untracked message id with a valid status
returns normally (`.ok`) and the table is exactly the old table — the
`UPDATE ... WHERE message_id = ?` matches no row and creates none. -/
theorem C10_update_status_untracked (store : Store) (now : Nat) (mid status : String)
    (f : UpdateFields) (hval : status ∈ VALID_STATUSES)
    (habs : ∀ r ∈ store, r.message_id ≠ mid) :
    update_status store now mid status f = .ok store := by
  rw [update_status_valid store now mid status f hval]
  have : update_status_store store now mid status f = store := by
    unfold update_status_store
    have h2 : ∀ r ∈ store,
        (if r.message_id = mid then applyUpdate r now status f else r) = id r := by
      intro r hr
      simp [habs r hr]
    rw [List.map_congr_left h2, List.map_id]
  rw [this]

/-- Witness for C10: a store tracking only `"m1"`, updated at `"m2"`. -/
theorem C10_witness :
    ("failed" ∈ VALID_STATUSES) ∧
      update_status [newPendingRecord 0 "m1" "t1" "L"] 1 "m2" "failed"
          { error_message := "Not returned in batch response" }
        = .ok [newPendingRecord 0 "m1" "t1" "L"] := by
  refine ⟨by decide, ?_⟩
  exact C10_update_status_untracked [newPendingRecord 0 "m1" "t1" "L"] 1 "m2" "failed"
    { error_message := "Not returned in batch response" } (by decide) (by decide)

/-- `INSERT OR IGNORE` only ever appends rows: the old table is a prefix. -/
theorem bulk_insert_aux_pref (now : Nat) (label : String) :
    ∀ (stubs : List (String × String)) (store : Store),
      store <+: (bulk_insert_aux now label store stubs).1 := by
  intro stubs
  induction stubs with
  | nil => intro store; exact List.prefix_rfl
  | cons p rest ih =>
    intro store
    obtain ⟨mid, tid⟩ := p
    unfold bulk_insert_aux
    by_cases h : store.any (fun r => r.message_id = mid)
    · simpa [h] using ih store
    · simp only [h, Bool.false_eq_true, if_false]
      exact (List.prefix_append store [newPendingRecord now mid tid label]).trans
        (ih (store ++ [newPendingRecord now mid tid label]))

/-- The returned count is exactly the number of rows the table grew by. -/
theorem bulk_insert_aux_length (now : Nat) (label : String) :
    ∀ (stubs : List (String × String)) (store : Store),
      (bulk_insert_aux now label store stubs).1.length
        = store.length + (bulk_insert_aux now label store stubs).2.1 := by
  intro stubs
  induction stubs with
  | nil => intro store; simp [bulk_insert_aux]
  | cons p rest ih =>
    intro store
    obtain ⟨mid, tid⟩ := p
    unfold bulk_insert_aux
    by_cases h : store.any (fun r => r.message_id = mid)
    · simpa [h] using ih store
    · simp only [h, Bool.false_eq_true, if_false]
      have := ih (store ++ [newPendingRecord now mid tid label])
      simp only [List.length_append, List.length_cons, List.length_nil] at this
      omega

/-- After a bulk insert every submitted message id is tracked. -/
theorem bulk_insert_aux_covers (now : Nat) (label : String) :
    ∀ (stubs : List (String × String)) (store : Store), ∀ p ∈ stubs,
      ∃ r ∈ (bulk_insert_aux now label store stubs).1, r.message_id = p.1 := by
  intro stubs
  induction stubs with
  | nil => intro store p hp; exact absurd hp (List.not_mem_nil p)
  | cons q rest ih =>
    intro store p hp
    obtain ⟨mid, tid⟩ := q
    unfold bulk_insert_aux
    rcases List.mem_cons.mp hp with hph | hpt
    · subst hph
      by_cases h : store.any (fun r => r.message_id = mid)
      · simp only [h, if_true]
        obtain ⟨r, hr, hrm⟩ := List.any_eq_true.mp h
        exact ⟨r, (bulk_insert_aux_pref now label rest store).mem hr, by simpa using hrm⟩
      · simp only [h, Bool.false_eq_true, if_false]
        refine ⟨newPendingRecord now mid tid label, ?_, rfl⟩
        exact (bulk_insert_aux_pref now label rest _).mem
          (by simp [newPendingRecord])
    · by_cases h : store.any (fun r => r.message_id = mid)
      · simp only [h, if_true]
        exact ih store p hpt
      · simp only [h, Bool.false_eq_true, if_false]
        exact ih _ p hpt

/-- A bulk insert whose every message id is already tracked is a complete
no-op: same table, zero count, no creation. -/
theorem bulk_insert_aux_all_tracked (now : Nat) (label : String) :
    ∀ (stubs : List (String × String)) (store : Store),
      (∀ p ∈ stubs, ∃ r ∈ store, r.message_id = p.1) →
      bulk_insert_aux now label store stubs = (store, 0, []) := by
  intro stubs
  induction stubs with
  | nil => intro store _; rfl
  | cons q rest ih =>
    intro store hall
    obtain ⟨mid, tid⟩ := q
    unfold bulk_insert_aux
    have h : store.any (fun r => r.message_id = mid) := by
      obtain ⟨r, hr, hrm⟩ := hall (mid, tid) (List.mem_cons_self _ _)
      exact List.any_eq_true.mpr ⟨r, hr, by simpa using hrm⟩
    simp only [h, if_true]
    exact ih store fun p hp => hall p (List.mem_cons_of_mem _ hp)

/-- Folding the additive accumulator equals summing the counters. -/
theorem foldl_add_snd (l : List (String × Nat)) :
    ∀ a : Nat, l.foldl (fun acc p => acc + p.2) a = a + (l.map Prod.snd).sum := by
  induction l with
  | nil => intro a; simp
  | cons x t ih => intro a; simp [ih, Nat.add_assoc]

/-- The per-status row count is the count of that status in the status
column. -/
theorem filter_status_length_eq_count (store : Store) (s : String) :
    (store.filter (fun r => r.status = s)).length
      = (store.map fun r => r.status).count s := by
  induction store with
  | nil => simp
  | cons r rest ih =>
    by_cases h : r.status = s
    · simp [List.count_cons, h, ih, List.filter_cons]
    · simp [List.count_cons, h, ih, List.filter_cons, Ne.symm h]

/-- Grouping rows by status and summing the group counts recovers the row
count: the total reported by `count_by_status` is the table size. -/
theorem countTotal_eq_length (store : Store) : countTotal store = store.length := by
  unfold countTotal count_by_status
  rw [foldl_add_snd, List.map_map]
  have hcongr : ∀ s ∈ (store.map fun r => r.status).dedup,
      (Prod.snd ∘ fun s => (s, (store.filter (fun r => r.status = s)).length)) s
        = (fun x => (store.map fun r => r.status).count x) s := by
    intro s _
    simpa only [Function.comp] using filter_status_length_eq_count store s
  rw [List.map_congr_left hcongr, List.sum_map_count_dedup_eq_length]
  simp

/-- C4: `bulkInsertPending` has insert-or-ignore semantics keyed by message
id: the returned count is the number of rows actually created (the old rows
survive unchanged as a prefix), every submitted id is tracked afterwards, and
re-submitting the identical stub list — at any later time and under any
label — changes nothing: it returns the same table with count 0, so the
total reported by `count_by_status` is invariant. -/
theorem C4_bulk_insert_insert_or_ignore (store : Store) (now now2 : Nat)
    (stubs : List (String × String)) (label label2 : String) :
    (bulk_insert_pending store now stubs label).1.length
        = store.length + (bulk_insert_pending store now stubs label).2 ∧
      store <+: (bulk_insert_pending store now stubs label).1 ∧
      (∀ p ∈ stubs, ∃ r ∈ (bulk_insert_pending store now stubs label).1,
        r.message_id = p.1) ∧
      bulk_insert_pending (bulk_insert_pending store now stubs label).1 now2 stubs label2
        = ((bulk_insert_pending store now stubs label).1, 0) ∧
      countTotal (bulk_insert_pending
          (bulk_insert_pending store now stubs label).1 now2 stubs label2).1
        = countTotal (bulk_insert_pending store now stubs label).1 := by
  have hcov := bulk_insert_aux_covers now label stubs store
  have hall := bulk_insert_aux_all_tracked now2 label2 stubs
    (bulk_insert_aux now label store stubs).1 hcov
  refine ⟨bulk_insert_aux_length now label stubs store,
    bulk_insert_aux_pref now label stubs store, hcov, ?_, ?_⟩
  · unfold bulk_insert_pending
    rw [hall]
  · unfold bulk_insert_pending
    rw [hall]

/-- Witness for C4: re-discovering `[("a","t1"),("b","t2"),("a","t3")]` over
the store it produced inserts nothing. -/
theorem C4_witness :
    bulk_insert_pending
        (bulk_insert_pending [] 0 [("a", "t1"), ("b", "t2"), ("a", "t3")] "L").1 1
        [("a", "t1"), ("b", "t2"), ("a", "t3")] "L"
      = ((bulk_insert_pending [] 0 [("a", "t1"), ("b", "t2"), ("a", "t3")] "L").1, 0) :=
  (C4_bulk_insert_insert_or_ignore [] 0 1 [("a", "t1"), ("b", "t2"), ("a", "t3")]
    "L" "L").2.2.2.1

/-- Exhaustion of the batch retry loop when every attempt is rate-limited:
with `a + fuel = maxRetries + 1` (the loop's invariant), the call errors with
`RateLimitError`, the attempt counter ends at `maxRetries + 1`, and the full
id list was re-issued on every remaining attempt. -/
theorem fetchBatchGo_all_rate_limited (ids : List String)
    (attempts : Nat → BatchAttemptOutcome) (mr : Nat)
    (hall : ∀ a, attemptRateLimited ids (attempts a) = true) :
    ∀ fuel a, a + fuel = mr + 1 →
      (fetchBatchGo ids attempts mr a fuel).result
          = .error (.rateLimitError (rateLimitExhaustedMsg mr)) ∧
        (fetchBatchGo ids attempts mr a fuel).attemptsMade = mr + 1 ∧
        (fetchBatchGo ids attempts mr a fuel).issued = List.replicate fuel ids := by
  intro fuel
  induction fuel with
  | zero =>
    intro a ha
    refine ⟨rfl, ?_, rfl⟩
    simpa [fetchBatchGo] using ha
  | succ fuel ih =>
    intro a ha
    have hrl := hall a
    cases hatt : attempts a with
    | transportError isRL m =>
      rw [hatt] at hrl
      simp only [attemptRateLimited] at hrl
      subst hrl
      by_cases hle : mr ≤ a
      · have haeq : a = mr := by omega
        subst haeq
        have hf : fuel = 0 := by omega
        subst hf
        simp [fetchBatchGo, hatt, List.replicate]
      · have hrec := ih (a + 1) (by omega)
        simp only [fetchBatchGo, hatt, if_neg hle]
        exact ⟨hrec.1, hrec.2.1, by rw [hrec.2.2, List.replicate_succ]⟩
    | completed respond =>
      rw [hatt] at hrl
      simp only [attemptRateLimited] at hrl
      by_cases hle : mr ≤ a
      · have haeq : a = mr := by omega
        subst haeq
        have hf : fuel = 0 := by omega
        subst hf
        simp [fetchBatchGo, hatt, hrl, List.replicate]
      · have hrec := ih (a + 1) (by omega)
        simp only [fetchBatchGo, hatt, hrl, if_true, if_neg hle]
        exact ⟨hrec.1, hrec.2.1, by rw [hrec.2.2, List.replicate_succ]⟩

/-- C2: if every attempt of a batch fetch signals rate-limiting (through any
sub-request or the transport itself), the whole id list is re-issued from
scratch on each of the `maxRetries + 1` attempts and the call then raises
`RateLimitError`; a non-rate-limit transport failure on the first attempt
raises the base `GmailIngestorError` (the spec's `ApiError`) after exactly
one attempt, with no retry. -/
theorem C2_batch_retry_policy (ids : List String)
    (attempts : Nat → BatchAttemptOutcome) (maxRetries : Nat) :
    ((∀ a, attemptRateLimited ids (attempts a) = true) →
      (fetch_messages_batch maxRetries ids attempts).result
          = .error (.rateLimitError (rateLimitExhaustedMsg maxRetries)) ∧
        (fetch_messages_batch maxRetries ids attempts).attemptsMade = maxRetries + 1 ∧
        (fetch_messages_batch maxRetries ids attempts).issued
          = List.replicate (maxRetries + 1) ids) ∧
      (∀ m, attempts 0 = .transportError false m →
        (fetch_messages_batch maxRetries ids attempts).result
            = .error (.apiError ("Batch request failed: " ++ m)) ∧
          (fetch_messages_batch maxRetries ids attempts).attemptsMade = 1 ∧
          (fetch_messages_batch maxRetries ids attempts).issued = [ids]) := by
  constructor
  · intro hall
    exact fetchBatchGo_all_rate_limited ids attempts maxRetries hall (maxRetries + 1) 0
      (by omega)
  · intro m h0
    unfold fetch_messages_batch
    simp [fetchBatchGo, h0]

/-- Witness for C2: with `maxRetries = 2` and every attempt rate-limited,
exactly 3 attempts are made, each re-issuing both ids, before
`RateLimitError`; and a non-rate-limit transport failure raises immediately
after 1 attempt. -/
theorem C2_witness :
    ((fetch_messages_batch 2 ["a", "b"] fun _ => .transportError true "429").result
        = .error (.rateLimitError "Rate limited during batch fetch after 2 retries") ∧
      (fetch_messages_batch 2 ["a", "b"] fun _ => .transportError true "429").attemptsMade
        = 3 ∧
      (fetch_messages_batch 2 ["a", "b"] fun _ => .transportError true "429").issued
        = [["a", "b"], ["a", "b"], ["a", "b"]]) ∧
      ((fetch_messages_batch 2 ["a", "b"] fun _ => .transportError false "boom").result
        = .error (.apiError "Batch request failed: boom") ∧
      (fetch_messages_batch 2 ["a", "b"] fun _ => .transportError false "boom").attemptsMade
        = 1) := by
  have h1 := (C2_batch_retry_policy ["a", "b"] (fun _ => .transportError true "429") 2).1
    (fun a => rfl)
  have h2 := (C2_batch_retry_policy ["a", "b"] (fun _ => .transportError false "boom") 2).2
    "boom" rfl
  exact ⟨⟨h1.1, h1.2.1, by rw [h1.2.2]; rfl⟩, ⟨h2.1, h2.2.1⟩⟩

/-- `Char.ofNat` on a valid scalar value round-trips. -/
theorem charToNatOfNat (n : Nat) (h : n.isValidChar) : (Char.ofNat n).toNat = n := by
  simp [Char.ofNat, h, Char.ofNatAux, Char.toNat, UInt32.toNat, BitVec.toNat_ofNatLt]

/-- `str.lower` on an ASCII character: stays ASCII and is never an ASCII
uppercase letter. -/
theorem toLower_ascii (c : Char) (hc : c.toNat ≤ 127) :
    (Char.toLower c).toNat ≤ 127 ∧
      ¬(65 ≤ (Char.toLower c).toNat ∧ (Char.toLower c).toNat ≤ 90) := by
  unfold Char.toLower
  by_cases h : c.toNat ≥ 65 ∧ c.toNat ≤ 90
  · have hv : (c.toNat + 32).isValidChar := Or.inl (by omega)
    rw [if_pos h, charToNatOfNat _ hv]
    omega
  · rw [if_neg h]
    exact ⟨hc, fun hk => h ⟨hk.1, hk.2⟩⟩

/-- A character of the collapsed string is a hyphen or a kept
(non-whitespace, non-hyphen) character of the input. -/
theorem mem_collapseDashRuns :
    ∀ (l : List Char) (b : Bool) (c : Char), c ∈ collapseDashRuns b l →
      c = '-' ∨ (c ∈ l ∧ (pyIsSpace c || c = '-') = false) := by
  intro l
  induction l with
  | nil => intro b c hc; exact absurd hc (List.not_mem_nil c)
  | cons a rest ih =>
    intro b c hc
    unfold collapseDashRuns at hc
    by_cases ha : (pyIsSpace a || a = '-') = true
    · rw [if_pos ha] at hc
      cases b with
      | true =>
        simp only [if_pos rfl] at hc
        rcases ih true c hc with h | ⟨hm, hk⟩
        · exact Or.inl h
        · exact Or.inr ⟨List.mem_cons_of_mem a hm, hk⟩
      | false =>
        rw [if_neg Bool.false_ne_true] at hc
        rcases List.mem_cons.mp hc with h | h
        · exact Or.inl h
        · rcases ih true c h with h2 | ⟨hm, hk⟩
          · exact Or.inl h2
          · exact Or.inr ⟨List.mem_cons_of_mem a hm, hk⟩
    · rw [if_neg ha] at hc
      rcases List.mem_cons.mp hc with h | h
      · subst h
        exact Or.inr ⟨List.mem_cons_self c rest, by simpa using ha⟩
      · rcases ih false c h with h2 | ⟨hm, hk⟩
        · exact Or.inl h2
        · exact Or.inr ⟨List.mem_cons_of_mem a hm, hk⟩

/-- `strip("-")` yields a prefix of the left-trimmed list. -/
theorem stripDashes_pref (l : List Char) :
    stripDashes l <+: l.dropWhile (· = '-') := by
  unfold stripDashes
  rw [← List.reverse_suffix, List.reverse_reverse]
  exact List.dropWhile_suffix _

/-- Every character of `strip("-")`'s output occurs in the input. -/
theorem mem_stripDashes (l : List Char) (c : Char) (h : c ∈ stripDashes l) : c ∈ l := by
  have h1 := (stripDashes_pref l).mem h
  exact (List.dropWhile_suffix (· = '-')).mem h1

/-- The head surviving `dropWhile` fails the predicate. -/
theorem dropWhile_head_false {p : Char → Bool} :
    ∀ (l t : List Char) (c : Char), l.dropWhile p = c :: t → p c = false := by
  intro l
  induction l with
  | nil => intro t c h; exact absurd h (by simp)
  | cons a rest ih =>
    intro t c h
    by_cases ha : p a = true
    · rw [List.dropWhile_cons_of_pos ha] at h
      exact ih t c h
    · rw [List.dropWhile_cons_of_neg (by simpa using ha)] at h
      cases h
      simpa using ha

/-- After `strip("-")` the result never starts with a hyphen. -/
theorem stripDashes_head_ne (l t : List Char) (c : Char)
    (h : stripDashes l = c :: t) : c ≠ '-' := by
  obtain ⟨u, hu⟩ := stripDashes_pref l
  rw [h] at hu
  have := dropWhile_head_false l (t ++ u) c hu.symm
  simpa using this

/-- A character surviving the whole filter → lower → filter → collapse →
strip pipeline is ASCII, not an ASCII uppercase letter, and is a word
character or a hyphen. -/
theorem slug_pipeline_mem (l : List Char) (c : Char)
    (hc : c ∈ stripDashes (collapseDashRuns false
      (((l.filter isAsciiCp).map Char.toLower).filter keepSlugChar))) :
    (c.toNat ≤ 127 ∧ ¬(65 ≤ c.toNat ∧ c.toNat ≤ 90)) ∧
      (pyIsWordChar c = true ∨ c = '-') := by
  have hc4 := mem_stripDashes _ c hc
  rcases mem_collapseDashRuns _ false c hc4 with hdash | ⟨hc3, hnd⟩
  · subst hdash
    exact ⟨⟨by decide, by decide⟩, Or.inr rfl⟩
  · have hc2 : c ∈ (l.filter isAsciiCp).map Char.toLower :=
      List.mem_of_mem_filter hc3
    have hkeep : keepSlugChar c = true := List.of_mem_filter hc3
    obtain ⟨c1, hc1, rfl⟩ := List.mem_map.mp hc2
    have hascii : c1.toNat ≤ 127 := by
      simpa [isAsciiCp] using List.of_mem_filter hc1
    have hl := toLower_ascii c1 hascii
    refine ⟨⟨hl.1, hl.2⟩, Or.inl ?_⟩
    have hs : pyIsSpace (Char.toLower c1) = false ∧
        (decide (Char.toLower c1 = '-')) = false := by
      simpa using hnd
    simpa [keepSlugChar, hs.1, hs.2] using hkeep

/-- If the input has no word characters at all (after lowering), nothing
survives the keep-filter except whitespace and hyphens, which collapse to
hyphens and are then stripped away entirely. -/
theorem slug_pipeline_empty (l : List Char)
    (hall : l.all (fun c => !(pyIsWordChar (Char.toLower c))) = true) :
    stripDashes (collapseDashRuns false
      (((l.filter isAsciiCp).map Char.toLower).filter keepSlugChar)) = [] := by
  have hdash : ∀ c ∈ collapseDashRuns false
      (((l.filter isAsciiCp).map Char.toLower).filter keepSlugChar), c = '-' := by
    intro c hc
    rcases mem_collapseDashRuns _ false c hc with h | ⟨hc3, hnd⟩
    · exact h
    · exfalso
      have hkeep : keepSlugChar c = true := List.of_mem_filter hc3
      obtain ⟨c1, hc1, rfl⟩ :=
        List.mem_map.mp (List.mem_of_mem_filter hc3)
      have hc1l : c1 ∈ l := List.mem_of_mem_filter hc1
      have hnw := List.all_eq_true.mp hall c1 hc1l
      have hs : pyIsSpace (Char.toLower c1) = false ∧
          (decide (Char.toLower c1 = '-')) = false := by simpa using hnd
      simp [keepSlugChar, hs.1, hs.2, Bool.not_eq_true'] at hkeep hnw
      exact absurd hkeep (by simp [hnw])
  unfold stripDashes
  have h1 : (collapseDashRuns false
      (((l.filter isAsciiCp).map Char.toLower).filter keepSlugChar)).dropWhile
        (· = '-') = [] := by
    rw [List.dropWhile_eq_nil_iff]
    intro x hx
    simpa using hdash x hx
  rw [h1]
  rfl

/-- C9 (amended): for every normalizer behaviour, input and requested
maximum, `_slugify` yields only ASCII with no ASCII uppercase letter, each
output character an alphanumeric/underscore or a hyphen, never a leading
hyphen, and length at most `max maxLength 8` (at most `maxLength` except for
the fallback `"untitled"`, which is returned regardless of the maximum); an
input with no alphanumeric/underscore characters — in particular the empty
string or a string of only symbols — yields the literal `"untitled"`.
Interior symbol runs are REMOVED, not collapsed to hyphens (only whitespace
and hyphen runs collapse, see the counterexample), and truncation happens
after trimming, so a trailing hyphen can survive. -/
theorem C9_slugify_amended (nfkd : String → String) (s : String) (ml : Nat) :
    (∀ c ∈ (slugify nfkd s ml).data, c.toNat ≤ 127) ∧
      (∀ c ∈ (slugify nfkd s ml).data, ¬(65 ≤ c.toNat ∧ c.toNat ≤ 90)) ∧
      (∀ c ∈ (slugify nfkd s ml).data, pyIsWordChar c = true ∨ c = '-') ∧
      (slugify nfkd s ml).length ≤ max ml 8 ∧
      (slugify nfkd s ml ≠ "untitled" → (slugify nfkd s ml).length ≤ ml) ∧
      (∀ c t, (slugify nfkd s ml).data = c :: t → c ≠ '-') ∧
      ((nfkd s).data.all (fun c => !(pyIsWordChar (Char.toLower c))) = true →
        slugify nfkd s ml = "untitled") := by
  have hdata : (slugify nfkd s ml).data = slugifyChars (nfkd s).data ml := rfl
  have hlen : (slugify nfkd s ml).length = (slugifyChars (nfkd s).data ml).length := rfl
  by_cases h5 : stripDashes (collapseDashRuns false
      ((((nfkd s).data.filter isAsciiCp).map Char.toLower).filter keepSlugChar)) = []
  · have hres : slugifyChars (nfkd s).data ml = "untitled".data := by
      simp only [slugifyChars]
      rw [if_pos h5]
    refine ⟨?_, ?_, ?_, ?_, ?_, ?_, ?_⟩
    · intro c hc; rw [hdata, hres] at hc; revert hc; revert c; decide
    · intro c hc; rw [hdata, hres] at hc; revert hc; revert c; decide
    · intro c hc; rw [hdata, hres] at hc; revert hc; revert c; decide
    · rw [hlen, hres]; exact le_max_right ml 8
    · intro hne
      exfalso
      apply hne
      have : slugify nfkd s ml = String.mk "untitled".data := congrArg String.mk hres
      simpa using this
    · intro c t hct
      rw [hdata, hres] at hct
      cases hct
      decide
    · intro _
      have : slugify nfkd s ml = String.mk "untitled".data := congrArg String.mk hres
      simpa using this
  · have hres : slugifyChars (nfkd s).data ml
        = (stripDashes (collapseDashRuns false
            ((((nfkd s).data.filter isAsciiCp).map Char.toLower).filter
              keepSlugChar))).take ml := by
      simp only [slugifyChars]
      rw [if_neg h5]
    have hmem : ∀ c ∈ (slugify nfkd s ml).data,
        (c.toNat ≤ 127 ∧ ¬(65 ≤ c.toNat ∧ c.toNat ≤ 90)) ∧
          (pyIsWordChar c = true ∨ c = '-') := by
      intro c hc
      rw [hdata, hres] at hc
      exact slug_pipeline_mem (nfkd s).data c (List.mem_of_mem_take hc)
    refine ⟨fun c hc => (hmem c hc).1.1, fun c hc => (hmem c hc).1.2,
      fun c hc => (hmem c hc).2, ?_, ?_, ?_, ?_⟩
    · rw [hlen, hres]
      exact le_trans (List.length_take_le ml _) (le_max_left ml 8)
    · intro _
      rw [hlen, hres]
      exact List.length_take_le ml _
    · intro c t hct
      rw [hdata, hres] at hct
      cases ml with
      | zero => simp at hct
      | succ m =>
        cases hstrip : stripDashes (collapseDashRuns false
            ((((nfkd s).data.filter isAsciiCp).map Char.toLower).filter
              keepSlugChar)) with
        | nil => exact absurd hstrip h5
        | cons a u =>
          rw [hstrip, List.take_succ_cons] at hct
          have hac : a = c := (List.cons.injEq _ _ _ _).mp hct |>.1
          subst hac
          exact stripDashes_head_ne _ u a hstrip
    · intro hall
      exact absurd (slug_pipeline_empty (nfkd s).data hall) h5

/-- Counterexample to C9 as stated: the claim says non-alphanumeric runs
(other than hyphens/underscores) collapse to single hyphens, so
`slugify "a.b"` would have to be `"a-b"`; the code deletes the `.` and
produces `"ab"`.  (`NFKD` is the identity on ASCII, so `nfkd = id` is the
real normalizer's behaviour here.) -/
theorem C9_counterexample :
    slugify (fun s => s) "a.b" 50 = "ab" ∧ slugify (fun s => s) "a.b" 50 ≠ "a-b" := by
  constructor
  · rfl
  · intro h
    rw [show slugify (fun s => s) "a.b" 50 = "ab" from rfl] at h
    exact absurd h (by decide)

/-- Witness for the amended C9: a symbols-only string maps to `"untitled"`,
and a real subject stays within the requested maximum. -/
theorem C9_witness :
    slugify (fun s => s) "!!!" 50 = "untitled" ∧
      (slugify (fun s => s) "Hello, World!" 50).length ≤ max 50 8 := by
  refine ⟨?_, (C9_slugify_amended (fun s => s) "Hello, World!" 50).2.2.2.1⟩
  exact (C9_slugify_amended (fun s => s) "!!!" 50).2.2.2.2.2.2 (by decide)

/-- C8 (code bug): `_convert_body` does implement the claimed fallback — with
the extractor returning `None` and a plain-text part present, the body result
is the plain text verbatim (third conjunct) — but `convert` can never return
that document: `_build_front_matter` reads `header.label_names`, a field
`EmailHeader` does not define, so at the failing input (plain-text body
`"Hello"`) `convert` raises `AttributeError` instead of returning the
plain-text document (first conjunct); `ConversionError` only appears when the
body yields nothing (second conjunct). -/
theorem C8_convert_crash :
    convert (fun _ => some none) "m1"
        { subject := "S", sender := "a@b.c", «to» := "", date := epochDT }
        { plain_text := some "Hello", html := none }
      = .error (.attributeError "'EmailHeader' object has no attribute 'label_names'") ∧
      convert (fun _ => some none) "m1"
          { subject := "S", sender := "a@b.c", «to» := "", date := epochDT }
          { plain_text := none, html := none }
        = .error (.conversionError "No convertible content for message m1") ∧
      convert_body (fun _ => some none)
          { plain_text := some "Hello", html := some "<p>x</p>" }
        = some "Hello" := by
  exact ⟨rfl, rfl, rfl⟩

/-! ## State-machine lemmas -/

/-- In a well-formed table, looking up a member row's id finds that row. -/
theorem get_message_of_mem (store : Store) (r : MessageRecord) (hwf : StoreWF store)
    (hr : r ∈ store) : get_message store r.message_id = some r := by
  induction store with
  | nil => exact absurd hr (List.not_mem_nil r)
  | cons a rest ih =>
    have hcons : (a.message_id :: rest.map fun x => x.message_id).Nodup := by
      simpa [StoreWF] using hwf
    rcases List.mem_cons.mp hr with h | h
    · subst h
      unfold get_message
      rw [List.find?_cons_of_pos _ (by simp)]
    · have hne : ¬ a.message_id = r.message_id := by
        intro he
        exact (List.nodup_cons.mp hcons).1 (he ▸ List.mem_map_of_mem _ h)
      unfold get_message at ih ⊢
      rw [List.find?_cons_of_neg _ (by simpa using hne)]
      exact ih (by simpa [StoreWF] using (List.nodup_cons.mp hcons).2) h

/-- The status-filtered id windows (`get_pending_ids` / `get_fetched_ids`):
every returned id belongs to a row of that status, and the window has no
duplicate ids. -/
theorem ids_by_status_props (store : Store) (s : String) (l o : Nat)
    (hwf : StoreWF store) :
    (∀ mid ∈ (((store.filter (fun r => r.status = s)).map
        (fun r => r.message_id)).drop o).take l,
      ∃ r ∈ store, r.message_id = mid ∧ r.status = s) ∧
      ((((store.filter (fun r => r.status = s)).map
        (fun r => r.message_id)).drop o).take l).Nodup := by
  constructor
  · intro mid hmid
    have h1 : mid ∈ (store.filter (fun r => r.status = s)).map fun r => r.message_id :=
      List.mem_of_mem_drop (List.mem_of_mem_take hmid)
    obtain ⟨r, hr, rfl⟩ := List.mem_map.mp h1
    exact ⟨r, List.mem_of_mem_filter hr, rfl, by simpa using List.of_mem_filter hr⟩
  · have hsub : ((((store.filter (fun r => r.status = s)).map
        (fun r => r.message_id)).drop o).take l).Sublist
          (store.map fun r => r.message_id) :=
      (List.take_sublist _ _).trans ((List.drop_sublist _ _).trans
        ((List.filter_sublist store).map _))
    exact hsub.nodup hwf

/-- Every id in a pending window is the id of a currently `pending` row. -/
theorem get_pending_ids_status (store : Store) (l o : Nat) (hwf : StoreWF store) :
    ∀ mid ∈ get_pending_ids store l o, statusOf store mid = some "pending" := by
  intro mid hmid
  obtain ⟨r, hr, rfl, hst⟩ := (ids_by_status_props store "pending" l o hwf).1 mid hmid
  unfold statusOf
  rw [get_message_of_mem store r hwf hr]
  simp [hst]

/-- A pending window has no duplicate ids. -/
theorem get_pending_ids_nodup (store : Store) (l o : Nat) (hwf : StoreWF store) :
    (get_pending_ids store l o).Nodup :=
  (ids_by_status_props store "pending" l o hwf).2

/-- Every id in a fetched window is the id of a currently `fetched` row. -/
theorem get_fetched_ids_status (store : Store) (l o : Nat) (hwf : StoreWF store) :
    ∀ mid ∈ get_fetched_ids store l o, statusOf store mid = some "fetched" := by
  intro mid hmid
  obtain ⟨r, hr, rfl, hst⟩ := (ids_by_status_props store "fetched" l o hwf).1 mid hmid
  unfold statusOf
  rw [get_message_of_mem store r hwf hr]
  simp [hst]

/-- A fetched window has no duplicate ids. -/
theorem get_fetched_ids_nodup (store : Store) (l o : Nat) (hwf : StoreWF store) :
    (get_fetched_ids store l o).Nodup :=
  (ids_by_status_props store "fetched" l o hwf).2

/-- A single `update_status` call preserves the pipeline invariant whenever
the written status is valid and the transition from the current status of the
touched row is allowed. -/
theorem stUpdate_good (st : StageState) (id s : String) (f : UpdateFields)
    (hs : s ∈ VALID_STATUSES)
    (hev : ∀ r, get_message st.store id = some r → AllowedEvent ⟨id, some r.status, s⟩)
    (hg : GoodState st) : GoodState (stUpdate st id s f) := by
  obtain ⟨hwf, hval, hevs, hcr⟩ := hg
  refine ⟨?_, ?_, ?_, ?_⟩
  · show ((update_status_store st.store st.clock id s f).map _).Nodup
    rw [update_status_store_ids]
    exact hwf
  · intro r hr
    have hr' : r ∈ (update_status_store st.store st.clock id s f) := hr
    unfold update_status_store at hr'
    obtain ⟨r0, hr0, rfl⟩ := List.mem_map.mp hr'
    by_cases h : r0.message_id = id
    · rw [if_pos h]
      exact hs
    · rw [if_neg h]
      exact hval r0 hr0
  · intro e he
    have he' : e ∈ st.events ++ eventsOfUpdate st.store id s := he
    rcases List.mem_append.mp he' with h | h
    · exact hevs e h
    · unfold eventsOfUpdate at h
      cases hm : get_message st.store id with
      | none => rw [hm] at h; exact absurd h (List.not_mem_nil e)
      | some r =>
        rw [hm] at h
        have he2 : e = ⟨id, some r.status, s⟩ := by simpa using h
        subst he2
        exact hev r hm
  · intro r hr
    have hr' : r ∈ (update_status_store st.store st.clock id s f) := hr
    unfold update_status_store at hr'
    obtain ⟨r0, hr0, rfl⟩ := List.mem_map.mp hr'
    show (⟨(if r0.message_id = id then applyUpdate r0 st.clock s f else r0).message_id,
      none, "pending"⟩ : Event) ∈ _
    rw [updateRow_message_id]
    exact List.mem_append_left _ (hcr r0 hr0)

/-- An id the table's `any` check rejects is absent from the id column. -/
theorem not_mem_of_any_false (store : Store) (mid : String)
    (h : store.any (fun r => r.message_id = mid) = false) :
    mid ∉ store.map fun r => r.message_id := by
  intro hmem
  obtain ⟨r, hr, hrm⟩ := List.mem_map.mp hmem
  have h2 : store.any (fun x => x.message_id = mid) = true :=
    List.any_eq_true.mpr ⟨r, hr, decide_eq_true hrm⟩
  rw [h] at h2
  exact Bool.false_ne_true h2

/-- The bulk insert keeps the table well-formed, generates only creation
events, and every row of the result is an old row or a fresh `pending` row
owning a creation event. -/
theorem bulk_insert_aux_good (now : Nat) (label : String) :
    ∀ (stubs : List (String × String)) (store : Store), StoreWF store →
      StoreWF (bulk_insert_aux now label store stubs).1 ∧
        (∀ e ∈ (bulk_insert_aux now label store stubs).2.2,
          e.old = none ∧ e.new = "pending") ∧
        (∀ r ∈ (bulk_insert_aux now label store stubs).1, r ∈ store ∨
          (r.status = "pending" ∧
            (⟨r.message_id, none, "pending"⟩ : Event)
              ∈ (bulk_insert_aux now label store stubs).2.2)) := by
  intro stubs
  induction stubs with
  | nil =>
    intro store hwf
    exact ⟨hwf, fun e he => absurd he (List.not_mem_nil e), fun r hr => Or.inl hr⟩
  | cons q rest ih =>
    intro store hwf
    obtain ⟨mid, tid⟩ := q
    unfold bulk_insert_aux
    by_cases h : store.any (fun r => r.message_id = mid)
    · simp only [h, if_true]
      exact ih store hwf
    · simp only [h, Bool.false_eq_true, if_false]
      have hwf' : StoreWF (store ++ [newPendingRecord now mid tid label]) := by
        unfold StoreWF
        rw [List.map_append]
        refine List.Nodup.append hwf (by simp) ?_
        intro x hx hy
        have : x = mid := by simpa [newPendingRecord] using hy
        subst this
        exact not_mem_of_any_false store x (by simpa using h) hx
      obtain ⟨h1, h2, h3⟩ := ih (store ++ [newPendingRecord now mid tid label]) hwf'
      refine ⟨h1, ?_, ?_⟩
      · intro e he
        rcases List.mem_cons.mp he with hh | hh
        · subst hh; exact ⟨rfl, rfl⟩
        · exact h2 e hh
      · intro r hr
        rcases h3 r hr with hmem | ⟨hp, hev⟩
        · rcases List.mem_append.mp hmem with hmem2 | hmem2
          · exact Or.inl hmem2
          · have : r = newPendingRecord now mid tid label := by simpa using hmem2
            subst this
            exact Or.inr ⟨rfl, List.mem_cons_self _ _⟩
        · exact Or.inr ⟨hp, List.mem_cons_of_mem _ hev⟩

/-- The discovery stage's bulk-insert call preserves the invariant. -/
theorem stBulkInsert_good (st : StageState) (stubs : List (String × String))
    (label : String) (hg : GoodState st) : GoodState (stBulkInsert st stubs label).1 := by
  obtain ⟨hwf, hval, hevs, hcr⟩ := hg
  obtain ⟨h1, h2, h3⟩ := bulk_insert_aux_good st.clock label stubs st.store hwf
  refine ⟨h1, ?_, ?_, ?_⟩
  · intro r hr
    rcases h3 r hr with hmem | ⟨hp, _⟩
    · exact hval r hmem
    · rw [hp]; decide
  · intro e he
    rcases List.mem_append.mp he with h | h
    · exact hevs e h
    · obtain ⟨ho, hn⟩ := h2 e h
      exact Or.inl ⟨ho, hn⟩
  · intro r hr
    rcases h3 r hr with hmem | ⟨_, hev⟩
    · exact List.mem_append_left _ (hcr r hmem)
    · exact List.mem_append_right _ hev

/-- Frame: a status update leaves every other row's lookup unchanged. -/
theorem stUpdate_get_other (st : StageState) (id s j : String) (f : UpdateFields)
    (hne : j ≠ id) :
    get_message (stUpdate st id s f).store j = get_message st.store j :=
  get_message_update_other st.store st.clock id s j f hne

/-- Frame: processing one raw message only touches that message's row. -/
theorem processOne_get_other (st : StageState) (fids : List String) (tf : Nat)
    (raw : RawMessage) (j : String) (hne : j ≠ raw.id) :
    get_message (processOne (st, fids, tf) raw).1.store j = get_message st.store j := by
  obtain ⟨rid, ro⟩ := raw
  cases ro with
  | ok meta => exact get_message_update_other st.store st.clock rid "fetched" j _ hne
  | error e => exact get_message_update_other st.store st.clock rid "failed" j _ hne

/-- Frame: a batch's per-message loop leaves rows outside the batch
response untouched. -/
theorem processRaws_get_other :
    ∀ (raws : List RawMessage) (st : StageState) (fids : List String) (tf : Nat)
      (j : String), j ∉ raws.map (fun r => r.id) →
      get_message (raws.foldl processOne (st, fids, tf)).1.store j
        = get_message st.store j := by
  intro raws
  induction raws with
  | nil => intro st fids tf j _; rfl
  | cons raw rest ih =>
    intro st fids tf j hj
    have hne : j ≠ raw.id := by
      intro he
      exact hj (by rw [List.map_cons, he]; exact List.mem_cons_self _ _)
    have hjt : j ∉ rest.map fun r => r.id := by
      intro hm
      exact hj (by rw [List.map_cons]; exact List.mem_cons_of_mem _ hm)
    rcases hacc : processOne (st, fids, tf) raw with ⟨st', fids', tf'⟩
    rw [List.foldl_cons, hacc]
    rw [ih st' fids' tf' j hjt]
    have := processOne_get_other st fids tf raw j hne
    rw [hacc] at this
    exact this

/-- The per-message loop preserves the invariant when the remaining raw
messages target distinct, currently `pending` rows. -/
theorem processRaws_good :
    ∀ (raws : List RawMessage) (st : StageState) (fids : List String) (tf : Nat),
      GoodState st →
      (∀ raw ∈ raws, statusOf st.store raw.id = some "pending") →
      ((raws.map fun r => r.id).Nodup) →
      GoodState (raws.foldl processOne (st, fids, tf)).1 := by
  intro raws
  induction raws with
  | nil => intro st fids tf hg _ _; exact hg
  | cons raw rest ih =>
    intro st fids tf hg hp hnd
    have hph := hp raw (List.mem_cons_self _ _)
    have hok : ∀ r, get_message st.store raw.id = some r → r.status = "pending" := by
      intro r hr
      unfold statusOf at hph
      rw [hr] at hph
      simpa using hph
    have hgone : GoodState (processOne (st, fids, tf) raw).1 := by
      obtain ⟨rid, ro⟩ := raw
      cases ro with
      | ok meta =>
        exact stUpdate_good st rid "fetched" _ (by decide)
          (fun r hr => Or.inr (Or.inl ⟨by rw [hok r hr], rfl⟩)) hg
      | error e =>
        exact stUpdate_good st rid "failed" _ (by decide)
          (fun r hr => Or.inr (Or.inr (Or.inl ⟨by rw [hok r hr], rfl⟩))) hg
    rcases hacc : processOne (st, fids, tf) raw with ⟨st', fids', tf'⟩
    rw [List.foldl_cons, hacc]
    rw [hacc] at hgone
    have hsimp : (∀ x ∈ rest, ¬ x.id = raw.id) ∧ ((rest.map fun r => r.id)).Nodup := by
      simpa using hnd
    refine ih st' fids' tf' hgone ?_ hsimp.2
    intro raw' hr'
    have hne : raw'.id ≠ raw.id := hsimp.1 raw' hr'
    have hframe := processOne_get_other st fids tf raw raw'.id hne
    rw [hacc] at hframe
    unfold statusOf
    rw [hframe]
    exact hp raw' (List.mem_cons_of_mem _ hr')

/-- Frame: marking one leftover id only touches that id's row. -/
theorem markLeftover_get_other (fids : List String) (st : StageState) (mid j : String)
    (hne : j ≠ mid) :
    get_message (markLeftover fids st mid).store j = get_message st.store j := by
  unfold markLeftover
  by_cases h1 : mid ∈ fids
  · rw [if_pos h1]
  · rw [if_neg h1]
    split
    · exact get_message_update_other st.store st.clock mid "failed" j _ hne
    · split
      · exact get_message_update_other st.store st.clock mid "failed" j _ hne
      · rfl

/-- Marking leftovers preserves the invariant unconditionally: it only ever
writes `failed` over a missing or still-`pending` row. -/
theorem markLeftover_good (fids : List String) (st : StageState) (mid : String)
    (hg : GoodState st) : GoodState (markLeftover fids st mid) := by
  unfold markLeftover
  by_cases h1 : mid ∈ fids
  · rwa [if_pos h1]
  · rw [if_neg h1]
    split
    · rename_i hm
      refine stUpdate_good st mid "failed" _ (by decide) ?_ hg
      intro r hr
      rw [hm] at hr
      exact Option.noConfusion hr
    · rename_i r hm
      split
      · rename_i hp
        refine stUpdate_good st mid "failed" _ (by decide) ?_ hg
        intro r' hr'
        rw [hm] at hr'
        have hrr : r = r' := by simpa using hr'
        subst hrr
        exact Or.inr (Or.inr (Or.inl ⟨by rw [hp], rfl⟩))
      · exact hg

/-- The whole leftover-marking loop preserves the invariant. -/
theorem markLeftovers_good :
    ∀ (pending : List String) (st : StageState) (fids : List String),
      GoodState st → GoodState (markLeftovers st pending fids) := by
  intro pending
  induction pending with
  | nil => intro st fids hg; exact hg
  | cons h t ih =>
    intro st fids hg
    exact ih (markLeftover fids st h) fids (markLeftover_good fids st h hg)

/-- Frame: the leftover loop leaves ids outside the requested list
untouched. -/
theorem markLeftovers_get_other :
    ∀ (pending : List String) (st : StageState) (fids : List String) (j : String),
      j ∉ pending →
      get_message (markLeftovers st pending fids).store j = get_message st.store j := by
  intro pending
  induction pending with
  | nil => intro st fids j _; rfl
  | cons h t ih =>
    intro st fids j hj
    have hne : j ≠ h := fun he => hj (he ▸ List.mem_cons_self _ _)
    have hjt : j ∉ t := fun hm => hj (List.mem_cons_of_mem _ hm)
    show get_message (markLeftovers (markLeftover fids st h) t fids).store j = _
    rw [ih (markLeftover fids st h) fids j hjt]
    exact markLeftover_get_other fids st h j hne

/-- The ids of the callback's result list are the sub-requests that
succeeded, in request order. -/
theorem attemptResults_map_id (ids : List String) (respond : String → SubOutcome) :
    (attemptResults ids respond).map (fun r => r.id)
      = ids.filter fun i =>
          match respond i with
          | .success _ => true
          | .failure _ _ => false := by
  induction ids with
  | nil => rfl
  | cons i rest ih =>
    unfold attemptResults at ih ⊢
    cases h : respond i <;>
      simp [List.filterMap_cons, h, List.filter_cons, ih]

/-- A successful batch returns raw messages whose ids are a filtered
selection of the requested ids. -/
theorem fetchBatchGo_ok_ids (ids : List String) (attempts : Nat → BatchAttemptOutcome)
    (mr : Nat) :
    ∀ (fuel a : Nat) (raws : List RawMessage),
      (fetchBatchGo ids attempts mr a fuel).result = .ok raws →
      ∃ p, raws.map (fun r => r.id) = ids.filter p := by
  intro fuel
  induction fuel with
  | zero => intro a raws h; exact Except.noConfusion h
  | succ fuel ih =>
    intro a raws h
    unfold fetchBatchGo at h
    split at h
    · exact Except.noConfusion h
    · split at h
      · exact Except.noConfusion h
      · exact ih (a + 1) raws h
    · rename_i respond heq
      split at h
      · split at h
        · exact Except.noConfusion h
        · exact ih (a + 1) raws h
      · have h2 : raws = attemptResults ids respond := (Except.ok.inj h).symm
        subst h2
        exact ⟨_, attemptResults_map_id ids respond⟩

/-- Wrapper of `fetchBatchGo_ok_ids` at the call boundary. -/
theorem fetch_messages_batch_ok_ids (mr : Nat) (ids : List String)
    (attempts : Nat → BatchAttemptOutcome) (raws : List RawMessage)
    (h : (fetch_messages_batch mr ids attempts).result = .ok raws) :
    ∃ p, raws.map (fun r => r.id) = ids.filter p :=
  fetchBatchGo_ok_ids ids attempts mr (mr + 1) 0 raws h

/-- One fetch-stage loop iteration after a successful batch preserves the
invariant, hence so does the whole loop. -/
theorem fetchLoop_good (attempts : Nat → Nat → BatchAttemptOutcome) (mr : Nat)
    (limit : Option Nat) (offset batchSize : Nat) :
    ∀ (fuel callIdx tf : Nat) (st : StageState), GoodState st →
      GoodState (fetchLoop attempts mr limit offset batchSize fuel callIdx tf st).1 := by
  intro fuel
  induction fuel with
  | zero => intro _ _ st hg; exact hg
  | succ fuel ih =>
    intro callIdx tf st hg
    simp only [fetchLoop]
    split
    · exact hg
    · split
      · exact hg
      · split
        · exact hg
        · rename_i raws hok
          apply ih
          apply markLeftovers_good
          obtain ⟨p, hp⟩ := fetch_messages_batch_ok_ids mr _ (attempts callIdx) raws hok
          apply processRaws_good raws st [] tf hg
          · intro raw hraw
            have hid : raw.id ∈ raws.map fun r => r.id := List.mem_map_of_mem _ hraw
            rw [hp] at hid
            exact get_pending_ids_status st.store _ offset hg.1 raw.id
              (List.mem_of_mem_filter hid)
          · rw [hp]
            exact (get_pending_ids_nodup st.store _ offset hg.1).filter p

/-- `run_fetch_pending` preserves the invariant. -/
theorem run_fetch_pending_good (attempts : Nat → Nat → BatchAttemptOutcome) (mr : Nat)
    (limit : Option Nat) (offset batchSize : Nat) (st : StageState) (hg : GoodState st) :
    GoodState (run_fetch_pending attempts mr limit offset batchSize st).1 :=
  fetchLoop_good attempts mr limit offset batchSize _ 0 0 (setStage st "fetch") hg

/-- One convert-stage item preserves the invariant when the id's row is
currently `fetched`. -/
theorem convertOne_good (fs : String → Option String)
    (extract : String → Option (Option String)) (parseIso : String → Option PyDateTime)
    (nfkd : String → String) (mdDir : String) (acc : StageState × Nat) (mid : String)
    (hg : GoodState acc.1) (hst : statusOf acc.1.store mid = some "fetched") :
    GoodState (convertOne fs extract parseIso nfkd mdDir acc mid).1 := by
  have hok : ∀ r, get_message acc.1.store mid = some r → r.status = "fetched" := by
    intro r hr
    unfold statusOf at hst
    rw [hr] at hst
    simpa using hst
  simp only [convertOne]
  split
  · exact hg
  · rename_i msg_record hm
    split
    · exact stUpdate_good acc.1 mid "converted" _ (by decide)
        (fun r hr => Or.inr (Or.inr (Or.inr (Or.inl ⟨by rw [hok r hr], rfl⟩)))) hg
    · exact stUpdate_good acc.1 mid "failed" _ (by decide)
        (fun r hr => Or.inr (Or.inr (Or.inr (Or.inr (Or.inl ⟨by rw [hok r hr], rfl⟩))))) hg

/-- Frame: one convert-stage item only touches that id's row. -/
theorem convertOne_get_other (fs : String → Option String)
    (extract : String → Option (Option String)) (parseIso : String → Option PyDateTime)
    (nfkd : String → String) (mdDir : String) (acc : StageState × Nat) (mid j : String)
    (hne : j ≠ mid) :
    get_message (convertOne fs extract parseIso nfkd mdDir acc mid).1.store j
      = get_message acc.1.store j := by
  simp only [convertOne]
  split
  · rfl
  · split
    · exact get_message_update_other acc.1.store acc.1.clock mid "converted" j _ hne
    · exact get_message_update_other acc.1.store acc.1.clock mid "failed" j _ hne

/-- The convert-stage batch fold preserves the invariant over distinct
`fetched` ids. -/
theorem convertFold_good (fs : String → Option String)
    (extract : String → Option (Option String)) (parseIso : String → Option PyDateTime)
    (nfkd : String → String) (mdDir : String) :
    ∀ (fids : List String) (st : StageState) (tc : Nat), GoodState st →
      (∀ mid ∈ fids, statusOf st.store mid = some "fetched") → fids.Nodup →
      GoodState (fids.foldl (convertOne fs extract parseIso nfkd mdDir) (st, tc)).1 := by
  intro fids
  induction fids with
  | nil => intro st tc hg _ _; exact hg
  | cons mid rest ih =>
    intro st tc hg hst hnd
    have hgone : GoodState (convertOne fs extract parseIso nfkd mdDir (st, tc) mid).1 :=
      convertOne_good fs extract parseIso nfkd mdDir (st, tc) mid hg
        (hst mid (List.mem_cons_self _ _))
    rcases hacc : convertOne fs extract parseIso nfkd mdDir (st, tc) mid with ⟨st', tc'⟩
    rw [List.foldl_cons, hacc]
    rw [hacc] at hgone
    refine ih st' tc' hgone ?_ (List.nodup_cons.mp hnd).2
    intro mid' hmid'
    have hne : mid' ≠ mid := by
      intro he
      exact (List.nodup_cons.mp hnd).1 (he ▸ hmid')
    have hframe := convertOne_get_other fs extract parseIso nfkd mdDir (st, tc) mid mid' hne
    rw [hacc] at hframe
    unfold statusOf
    rw [hframe]
    exact hst mid' (List.mem_cons_of_mem _ hmid')

/-- The convert-stage loop preserves the invariant. -/
theorem convertLoop_good (fs : String → Option String)
    (extract : String → Option (Option String)) (parseIso : String → Option PyDateTime)
    (nfkd : String → String) (mdDir : String) (limit : Option Nat)
    (offset batchSize : Nat) :
    ∀ (fuel tc : Nat) (st : StageState), GoodState st →
      GoodState (convertLoop fs extract parseIso nfkd mdDir limit offset batchSize
        fuel tc st).1 := by
  intro fuel
  induction fuel with
  | zero => intro _ st hg; exact hg
  | succ fuel ih =>
    intro tc st hg
    simp only [convertLoop]
    split
    · exact hg
    · split
      · exact hg
      · apply ih
        apply convertFold_good fs extract parseIso nfkd mdDir _ st tc hg
        · exact get_fetched_ids_status st.store _ offset hg.1
        · exact get_fetched_ids_nodup st.store _ offset hg.1

/-- `run_convert_pending` preserves the invariant. -/
theorem run_convert_pending_good (fs : String → Option String)
    (extract : String → Option (Option String)) (parseIso : String → Option PyDateTime)
    (nfkd : String → String) (mdDir : String) (limit : Option Nat)
    (offset batchSize : Nat) (st : StageState) (hg : GoodState st) :
    GoodState (run_convert_pending fs extract parseIso nfkd mdDir limit offset
      batchSize st).1 :=
  convertLoop_good fs extract parseIso nfkd mdDir limit offset batchSize _ 0
    (setStage st "convert") hg

/-- The discovery loop preserves the invariant. -/
theorem discoveryGo_good (label : String) (limit : Option Nat) (offset : Nat) :
    ∀ (pages : List (Except ClientError (List MessageStub)))
      (seen coll tn pr : Nat) (collAcc : List MessageStub) (st : StageState),
      GoodState st →
      GoodState (discoveryGo label limit offset pages seen coll tn pr collAcc st).state := by
  intro pages
  induction pages with
  | nil => intro _ _ _ _ _ st hg; exact hg
  | cons pg rest ih =>
    intro seen coll tn pr collAcc st hg
    cases pg with
    | error e => exact hg
    | ok page =>
      simp only [discoveryGo]
      have hstep : GoodState (if (pageScan offset limit page seen coll).1.isEmpty
          then (st, 0)
          else stBulkInsert st ((pageScan offset limit page seen coll).1.map
            fun s => (s.message_id, s.thread_id)) label).1 := by
        split
        · exact hg
        · exact stBulkInsert_good st _ label hg
      split
      · exact hstep
      · exact ih _ _ _ _ _ _ hstep

/-- `run_discovery` preserves the invariant. -/
theorem run_discovery_good (label : String)
    (pages : List (Except ClientError (List MessageStub))) (limit : Option Nat)
    (offset : Nat) (st : StageState) (hg : GoodState st) :
    GoodState (run_discovery label pages limit offset st).state :=
  discoveryGo_good label limit offset pages 0 0 0 0 [] (setStage st "discovery") hg

/-- `retry_failed` preserves the id column. -/
theorem retry_failed_ids (store : Store) (now : Nat) :
    (retry_failed store now).1.map (fun r => r.message_id)
      = store.map fun r => r.message_id := by
  unfold retry_failed
  rw [List.map_map]
  refine List.map_congr_left fun r _ => ?_
  by_cases h : r.status = "failed" <;> simp [h]

/-- The operator retry preserves the invariant: it moves exactly the
`failed` rows to `pending`. -/
theorem stRetry_good (st : StageState) (hg : GoodState st) : GoodState (stRetry st) := by
  obtain ⟨hwf, hval, hevs, hcr⟩ := hg
  refine ⟨?_, ?_, ?_, ?_⟩
  · show ((retry_failed st.store st.clock).1.map _).Nodup
    rw [retry_failed_ids]
    exact hwf
  · intro r hr
    have hr' : r ∈ (retry_failed st.store st.clock).1 := hr
    unfold retry_failed at hr'
    obtain ⟨r0, hr0, rfl⟩ := List.mem_map.mp hr'
    by_cases h : r0.status = "failed"
    · rw [if_pos h]
      exact (by decide : ("pending" : String) ∈ VALID_STATUSES)
    · rw [if_neg h]; exact hval r0 hr0
  · intro e he
    rcases List.mem_append.mp he with h | h
    · exact hevs e h
    · obtain ⟨r0, _, heq⟩ := List.mem_filterMap.mp h
      by_cases hf : r0.status = "failed"
      · rw [if_pos hf] at heq
        have he2 : e = ⟨r0.message_id, some "failed", "pending"⟩ := (Option.some.inj heq).symm
        subst he2
        exact Or.inr (Or.inr (Or.inr (Or.inr (Or.inr ⟨rfl, rfl⟩))))
      · rw [if_neg hf] at heq
        exact Option.noConfusion heq
  · intro r hr
    have hr' : r ∈ (retry_failed st.store st.clock).1 := hr
    unfold retry_failed at hr'
    obtain ⟨r0, hr0, rfl⟩ := List.mem_map.mp hr'
    have hmid : (if r0.status = "failed"
        then { r0 with status := "pending", error_message := "", updated_at := st.clock }
        else r0).message_id = r0.message_id := by
      by_cases h : r0.status = "failed" <;> simp [h]
    rw [hmid]
    exact List.mem_append_left _ (hcr r0 hr0)

/-- Every pipeline operation preserves the invariant. -/
theorem applyOp_good (st : StageState) (op : PipelineOp) (hg : GoodState st) :
    GoodState (applyOp st op) := by
  cases op with
  | discover pages label limit offset => exact run_discovery_good label pages limit offset st hg
  | fetchStage attempts mr limit offset batchSize =>
    exact run_fetch_pending_good attempts mr limit offset batchSize st hg
  | convertStage fs extract parseIso nfkd mdDir limit offset batchSize =>
    exact run_convert_pending_good fs extract parseIso nfkd mdDir limit offset batchSize st hg
  | operatorRetry => exact stRetry_good st hg

/-- The empty store is a good state. -/
theorem initState_good : GoodState initState := by
  refine ⟨List.nodup_nil, ?_, ?_, ?_⟩ <;> intro x hx <;> exact absurd hx (List.not_mem_nil x)

/-- Any operation sequence from the empty store lands in a good state. -/
theorem applyOps_good (ops : List PipelineOp) : GoodState (applyOps ops) := by
  unfold applyOps
  have h : ∀ (l : List PipelineOp) (st : StageState), GoodState st →
      GoodState (l.foldl applyOp st) := by
    intro l
    induction l with
    | nil => intro st hg; exact hg
    | cons op rest ih => intro st hg; exact ih (applyOp st op) (applyOp_good st op hg)
  exact h ops initState initState_good

/-- C1: starting from an empty store, any sequence of pipeline operations
(discovery insertion, fetch stage, convert stage, operator retry — each with
arbitrary transport, parser, extractor, filesystem and clock behaviour)
keeps every tracked status inside {pending, fetched, converted, failed};
every row mutation logged in the ghost event trace is one of the five
allowed transitions (creation as pending, pending→fetched, pending→failed,
fetched→converted, fetched→failed, failed→pending), so no other transition
is ever performed; and every tracked row — in particular every `fetched` or
`converted` one — owns a creation event showing it was first inserted as
`pending`. -/
theorem C1_status_state_machine (ops : List PipelineOp) :
    (∀ r ∈ (applyOps ops).store, r.status ∈ VALID_STATUSES) ∧
      (∀ e ∈ (applyOps ops).events, AllowedEvent e) ∧
      (∀ r ∈ (applyOps ops).store,
        (⟨r.message_id, none, "pending"⟩ : Event) ∈ (applyOps ops).events) := by
  obtain ⟨_, hval, hevs, hcr⟩ := applyOps_good ops
  exact ⟨hval, hevs, hcr⟩

/-- Witness for C1: a concrete discovery run's creation event is in the
trace and allowed. -/
theorem C1_witness :
    (⟨"a", none, "pending"⟩ : Event)
        ∈ (applyOps [.discover [.ok [⟨"a", "t1"⟩]] "INBOX" none 0]).events ∧
      AllowedEvent ⟨"a", none, "pending"⟩ := by
  have h := C1_status_state_machine [.discover [.ok [⟨"a", "t1"⟩]] "INBOX" none 0]
  have hmem : (⟨"a", none, "pending"⟩ : Event)
      ∈ (applyOps [.discover [.ok [⟨"a", "t1"⟩]] "INBOX" none 0]).events := by decide
  exact ⟨hmem, h.2.1 _ hmem⟩

/-- The leftover pass writes `failed` with the fixed reason over a
still-`pending` requested row it must mark. -/
theorem markLeftover_marks (fids : List String) (st : StageState) (mid : String)
    (r : MessageRecord) (hm : get_message st.store mid = some r)
    (hp : r.status = "pending") (hnf : mid ∉ fids) :
    get_message (markLeftover fids st mid).store mid
      = some (applyUpdate r st.clock "failed"
          { error_message := "Not returned in batch response" }) := by
  unfold markLeftover
  rw [if_neg hnf]
  split
  · rename_i hm2
    rw [hm] at hm2
    exact Option.noConfusion hm2
  · rename_i r2 hm2
    rw [hm] at hm2
    obtain rfl : r = r2 := Option.some.inj hm2
    rw [if_pos hp]
    show get_message (update_status_store st.store st.clock mid "failed" _) mid = _
    rw [get_message_update_self, hm]
    rfl

/-- The leftover pass never touches a row whose status is no longer
`pending`. -/
theorem markLeftover_skips (fids : List String) (st : StageState) (mid : String)
    (r : MessageRecord) (hm : get_message st.store mid = some r)
    (hp : r.status ≠ "pending") : markLeftover fids st mid = st := by
  unfold markLeftover
  by_cases h1 : mid ∈ fids
  · rw [if_pos h1]
  · rw [if_neg h1]
    split
    · rename_i hm2
      rw [hm] at hm2
      exact Option.noConfusion hm2
    · rename_i r2 hm2
      rw [hm] at hm2
      obtain rfl : r = r2 := Option.some.inj hm2
      rw [if_neg hp]

/-- The full leftover loop: (I) a requested id outside the response set whose
row is still `pending` ends `failed` with the fixed reason; (II) a row whose
status is not `pending` is left exactly as it was. -/
theorem markLeftovers_spec :
    ∀ (pending : List String) (st : StageState) (fids : List String), pending.Nodup →
      (∀ mid ∈ pending, mid ∉ fids →
        ∀ r, get_message st.store mid = some r → r.status = "pending" →
          ∃ r', get_message (markLeftovers st pending fids).store mid = some r' ∧
            r'.status = "failed" ∧
            r'.error_message = "Not returned in batch response") ∧
      (∀ mid, statusOf st.store mid ≠ some "pending" →
        get_message (markLeftovers st pending fids).store mid
          = get_message st.store mid) := by
  intro pending
  induction pending with
  | nil =>
    intro st fids _
    exact ⟨fun mid hm => absurd hm (List.not_mem_nil mid), fun mid _ => rfl⟩
  | cons h t ih =>
    intro st fids hnd
    obtain ⟨hh, hndt⟩ := List.nodup_cons.mp hnd
    constructor
    · intro mid hmid hnf r hr hp
      rcases List.mem_cons.mp hmid with rfl | hmt
      · have hmark := markLeftover_marks fids st mid r hr hp hnf
        have hframe := markLeftovers_get_other t (markLeftover fids st mid) fids mid hh
        refine ⟨applyUpdate r st.clock "failed"
          { error_message := "Not returned in batch response" }, ?_, rfl, ?_⟩
        · show get_message (markLeftovers (markLeftover fids st mid) t fids).store mid = _
          rw [hframe, hmark]
        · rfl
      · have hne : mid ≠ h := fun he => hh (he ▸ hmt)
        have hframe := markLeftover_get_other fids st h mid hne
        have hr' : get_message (markLeftover fids st h).store mid = some r := by
          rw [hframe]; exact hr
        exact (ih (markLeftover fids st h) fids hndt).1 mid hmt hnf r hr' hp
    · intro mid hst
      show get_message (markLeftovers (markLeftover fids st h) t fids).store mid = _
      by_cases he : mid = h
      · subst he
        cases hm : get_message st.store mid with
        | none =>
          have h1 : get_message (markLeftover fids st mid).store mid = none := by
            unfold markLeftover
            by_cases h2 : mid ∈ fids
            · rw [if_pos h2]; exact hm
            · rw [if_neg h2]
              split
              · show get_message (update_status_store st.store st.clock mid "failed" _) mid
                  = none
                rw [get_message_update_self, hm]
                rfl
              · rename_i r2 hm2
                rw [hm] at hm2
                exact Option.noConfusion hm2
          have h2 := (ih (markLeftover fids st mid) fids hndt).2 mid
            (by unfold statusOf; rw [h1]; simp)
          rw [h2, h1]
        | some r =>
          have hp : r.status ≠ "pending" := by
            unfold statusOf at hst
            rw [hm] at hst
            simpa using hst
          rw [markLeftover_skips fids st mid r hm hp,
            (ih st fids hndt).2 mid hst]
          exact hm
      · have hframe := markLeftover_get_other fids st h mid he
        have h2 := (ih (markLeftover fids st h) fids hndt).2 mid
          (by unfold statusOf; rw [hframe]; exact hst)
        rw [h2, hframe]

/-- The `fetched_ids` set accumulated by the per-message loop only ever
contains ids of the batch response (or ids already accumulated). -/
theorem processRaws_fids_subset :
    ∀ (raws : List RawMessage) (st : StageState) (fids : List String) (tf : Nat),
      ∀ x ∈ (raws.foldl processOne (st, fids, tf)).2.1,
        x ∈ fids ∨ x ∈ raws.map fun r => r.id := by
  intro raws
  induction raws with
  | nil => intro st fids tf x hx; exact Or.inl hx
  | cons raw rest ih =>
    intro st fids tf x hx
    obtain ⟨rid, ro⟩ := raw
    rw [List.foldl_cons] at hx
    cases ro with
    | ok meta =>
      rcases ih _ _ _ x hx with hf | hr
      · rcases List.mem_append.mp hf with hf2 | hf2
        · exact Or.inl hf2
        · have : x = rid := by simpa using hf2
          exact Or.inr (by rw [this, List.map_cons]; exact List.mem_cons_self _ _)
      · exact Or.inr (by rw [List.map_cons]; exact List.mem_cons_of_mem _ hr)
    | error e =>
      rcases ih _ _ _ x hx with hf | hr
      · exact Or.inl hf
      · exact Or.inr (by rw [List.map_cons]; exact List.mem_cons_of_mem _ hr)

/-- C6: for every fetch-stage batch iteration, (I) every requested id that
does not appear among the returned raw messages ends `failed` with the error
"Not returned in batch response", and (II) an id whose row's status is no
longer `pending` after the per-message loop (e.g. already `fetched` or
`failed` by it) is left exactly as the per-message loop wrote it — the
leftover marking never clobbers it. -/
theorem C6_fetch_marks_unreturned (st : StageState) (ql offset : Nat)
    (raws : List RawMessage) (hwf : StoreWF st.store) :
    (∀ mid ∈ get_pending_ids st.store ql offset,
      mid ∉ raws.map (fun r => r.id) →
      ∃ r', get_message (markLeftovers (processRaws st raws 0).1
          (get_pending_ids st.store ql offset) (processRaws st raws 0).2.1).store mid
        = some r' ∧ r'.status = "failed" ∧
        r'.error_message = "Not returned in batch response") ∧
      (∀ mid, statusOf (processRaws st raws 0).1.store mid ≠ some "pending" →
        get_message (markLeftovers (processRaws st raws 0).1
            (get_pending_ids st.store ql offset) (processRaws st raws 0).2.1).store mid
          = get_message (processRaws st raws 0).1.store mid) := by
  have hnd := get_pending_ids_nodup st.store ql offset hwf
  have hspec := markLeftovers_spec (get_pending_ids st.store ql offset)
    (processRaws st raws 0).1 (processRaws st raws 0).2.1 hnd
  refine ⟨?_, hspec.2⟩
  intro mid hmid hnr
  have hpend := get_pending_ids_status st.store ql offset hwf mid hmid
  obtain ⟨r, hr⟩ : ∃ r, get_message st.store mid = some r ∧ r.status = "pending" := by
    unfold statusOf at hpend
    cases hgm : get_message st.store mid with
    | none => rw [hgm] at hpend; exact Option.noConfusion hpend
    | some r =>
      rw [hgm] at hpend
      exact ⟨r, rfl, by simpa using hpend⟩
  have hframe : get_message (processRaws st raws 0).1.store mid
      = get_message st.store mid := processRaws_get_other raws st [] 0 mid hnr
  have hnf : mid ∉ (processRaws st raws 0).2.1 := by
    intro hmem
    rcases processRaws_fids_subset raws st [] 0 mid hmem with hf | hf
    · exact absurd hf (List.not_mem_nil mid)
    · exact hnr hf
  exact hspec.1 mid hmid hnf r (by rw [hframe]; exact hr.1) hr.2

/-- Witness for C6: two pending rows, a batch response containing only
`"a"`; `"b"` ends `failed` with the fixed reason. -/
theorem C6_witness :
    ∃ r', get_message (markLeftovers
        (processRaws ⟨[newPendingRecord 0 "a" "t1" "L", newPendingRecord 0 "b" "t2" "L"],
          [], 1, {}, []⟩ [⟨"a", .ok {}⟩] 0).1
        (get_pending_ids
          (⟨[newPendingRecord 0 "a" "t1" "L", newPendingRecord 0 "b" "t2" "L"],
            [], 1, {}, []⟩ : StageState).store 10 0)
        (processRaws ⟨[newPendingRecord 0 "a" "t1" "L", newPendingRecord 0 "b" "t2" "L"],
          [], 1, {}, []⟩ [⟨"a", .ok {}⟩] 0).2.1).store "b"
      = some r' ∧ r'.status = "failed" ∧
      r'.error_message = "Not returned in batch response" :=
  (C6_fetch_marks_unreturned
    ⟨[newPendingRecord 0 "a" "t1" "L", newPendingRecord 0 "b" "t2" "L"], [], 1, {}, []⟩
    10 0 [⟨"a", .ok {}⟩] (by unfold StoreWF; decide)).1 "b" (by decide) (by decide)

/-- The inner `for stub in page` loop, for a positive limit `l`: threading
the invariant `collected = min l (seen - offset)` (not yet at the limit),
the scan's outputs satisfy the counting equations, the break flag fires
exactly when the limit is reached, and an unbroken scan consumes the whole
page. -/
theorem pageScan_spec (offset l : Nat) :
    ∀ (page : List MessageStub) (seen coll : Nat),
      coll = min l (seen - offset) → coll < l →
      (pageScan offset (some l) page seen coll).2.2.1
          = min l ((pageScan offset (some l) page seen coll).2.1 - offset) ∧
        (pageScan offset (some l) page seen coll).1.length
          = (pageScan offset (some l) page seen coll).2.2.1 - coll ∧
        ((pageScan offset (some l) page seen coll).2.2.2 = true ↔
          l ≤ (pageScan offset (some l) page seen coll).2.2.1) ∧
        (pageScan offset (some l) page seen coll).2.1 ≤ seen + page.length ∧
        ((pageScan offset (some l) page seen coll).2.2.2 = false →
          (pageScan offset (some l) page seen coll).2.1 = seen + page.length ∧
            (pageScan offset (some l) page seen coll).2.2.1 < l) ∧
        coll ≤ (pageScan offset (some l) page seen coll).2.2.1 := by
  intro page
  induction page with
  | nil =>
    intro seen coll hc hlt
    have hred : pageScan offset (some l) [] seen coll = ([], seen, coll, false) := rfl
    rw [hred]
    refine ⟨hc, ?_, ?_, ?_, fun _ => ⟨?_, hlt⟩, le_refl coll⟩
    · show ([] : List MessageStub).length = coll - coll
      simp
    · show (false = true) ↔ l ≤ coll
      simp only [Bool.false_eq_true, false_iff]
      omega
    · show seen ≤ seen + ([] : List MessageStub).length
      simp
    · show seen = seen + ([] : List MessageStub).length
      simp
  | cons stub rest ih =>
    intro seen coll hc hlt
    by_cases hskip : seen + 1 ≤ offset
    · have hred : pageScan offset (some l) (stub :: rest) seen coll
          = pageScan offset (some l) rest (seen + 1) coll := by
        simp [pageScan, hskip]
      have hc2 : coll = min l ((seen + 1) - offset) := by omega
      obtain ⟨i1, i2, i3, i4, i5, i6⟩ := ih (seen + 1) coll hc2 hlt
      rw [hred]
      refine ⟨i1, i2, i3, ?_, ?_, i6⟩
      · rw [List.length_cons]
        omega
      · intro hb
        obtain ⟨j1, j2⟩ := i5 hb
        refine ⟨?_, j2⟩
        rw [List.length_cons]
        omega
    · have hoff : offset ≤ seen := by omega
      have hcoll : coll = seen - offset := by omega
      by_cases hbrk : l ≤ coll + 1
      · have hred : pageScan offset (some l) (stub :: rest) seen coll
            = ([stub], seen + 1, coll + 1, true) := by
          simp [pageScan, hskip, limitReached, hbrk]
        rw [hred]
        refine ⟨?_, ?_, ⟨fun _ => hbrk, fun _ => rfl⟩, ?_, ?_, ?_⟩
        · show coll + 1 = min l ((seen + 1) - offset)
          omega
        · show [stub].length = (coll + 1) - coll
          simp
        · show seen + 1 ≤ seen + (stub :: rest).length
          rw [List.length_cons]
          omega
        · intro hb
          exact absurd hb (by simp)
        · show coll ≤ coll + 1
          omega
      · have hred : pageScan offset (some l) (stub :: rest) seen coll
            = (stub :: (pageScan offset (some l) rest (seen + 1) (coll + 1)).1,
              (pageScan offset (some l) rest (seen + 1) (coll + 1)).2.1,
              (pageScan offset (some l) rest (seen + 1) (coll + 1)).2.2.1,
              (pageScan offset (some l) rest (seen + 1) (coll + 1)).2.2.2) := by
          simp [pageScan, hskip, limitReached, hbrk]
        have hc2 : coll + 1 = min l ((seen + 1) - offset) := by omega
        obtain ⟨i1, i2, i3, i4, i5, i6⟩ := ih (seen + 1) (coll + 1) hc2 (by omega)
        rw [hred]
        refine ⟨i1, ?_, i3, ?_, ?_, ?_⟩
        · show (pageScan offset (some l) rest (seen + 1) (coll + 1)).1.length + 1
              = (pageScan offset (some l) rest (seen + 1) (coll + 1)).2.2.1 - coll
          omega
        · show (pageScan offset (some l) rest (seen + 1) (coll + 1)).2.1
              ≤ seen + (stub :: rest).length
          rw [List.length_cons]
          omega
        · intro hb
          obtain ⟨j1, j2⟩ := i5 hb
          refine ⟨?_, j2⟩
          show (pageScan offset (some l) rest (seen + 1) (coll + 1)).2.1
              = seen + (stub :: rest).length
          rw [List.length_cons]
          omega
        · show coll ≤ (pageScan offset (some l) rest (seen + 1) (coll + 1)).2.2.1
          omega

/-- The discovery page loop, for a positive limit: the number of stubs
collected over the remaining pages, the page-request bound, and the
necessity of every page request (a further page is requested only while the
limit is not yet reached). -/
theorem discoveryGo_count (label : String) (l offset : Nat) :
    ∀ (pages : List (List MessageStub)) (seen coll tn pr : Nat)
      (collAcc : List MessageStub) (st : StageState),
      coll = min l (seen - offset) → coll < l →
      (discoveryGo label (some l) offset (pages.map Except.ok) seen coll tn pr collAcc
            st).collected.length
          = collAcc.length + (min l ((seen + pagesTotal pages) - offset) - coll) ∧
        (discoveryGo label (some l) offset (pages.map Except.ok) seen coll tn pr collAcc
            st).pagesRequested ≤ pr + pages.length ∧
        (∀ k, pr + k + 1 < (discoveryGo label (some l) offset (pages.map Except.ok)
            seen coll tn pr collAcc st).pagesRequested →
          (seen + ((pages.take (k + 1)).map List.length).sum) - offset < l) := by
  intro pages
  induction pages with
  | nil =>
    intro seen coll tn pr collAcc st hc hlt
    refine ⟨?_, ?_, ?_⟩
    · show collAcc.length
          = collAcc.length + (min l ((seen + pagesTotal []) - offset) - coll)
      simp only [pagesTotal, List.map_nil, List.sum_nil]
      omega
    · show pr ≤ pr + ([] : List (List MessageStub)).length
      simp
    · intro k hk
      have hk2 : pr + k + 1 < pr := hk
      omega
  | cons page rest ih =>
    intro seen coll tn pr collAcc st hc hlt
    obtain ⟨p1, p2, p3, p4, p5, p6⟩ := pageScan_spec offset l page seen coll hc hlt
    have htot : pagesTotal (page :: rest) = page.length + pagesTotal rest := by
      simp [pagesTotal]
    rw [List.map_cons]
    simp only [discoveryGo]
    by_cases hlim : l ≤ (pageScan offset (some l) page seen coll).2.2.1
    · have hcond : limitReached (some l)
          (pageScan offset (some l) page seen coll).2.2.1 = true := by
        simp only [limitReached]
        exact decide_eq_true hlim
      rw [hcond, if_pos rfl]
      refine ⟨?_, ?_, ?_⟩
      · show (collAcc ++ (pageScan offset (some l) page seen coll).1).length = _
        rw [List.length_append, p2, htot]
        omega
      · show pr + 1 ≤ pr + (page :: rest).length
        rw [List.length_cons]
        omega
      · intro k hk
        have hk2 : pr + k + 1 < pr + 1 := hk
        omega
    · have hcond : limitReached (some l)
          (pageScan offset (some l) page seen coll).2.2.1 = false := by
        simp only [limitReached]
        simpa using hlim
      rw [hcond, if_neg Bool.false_ne_true]
      have hbrk : (pageScan offset (some l) page seen coll).2.2.2 = false := by
        cases hb : (pageScan offset (some l) page seen coll).2.2.2 with
        | false => rfl
        | true => exact absurd (p3.mp hb) hlim
      obtain ⟨q1, q2⟩ := p5 hbrk
      obtain ⟨r1, r2, r3⟩ := ih (pageScan offset (some l) page seen coll).2.1
        (pageScan offset (some l) page seen coll).2.2.1
        (tn + (if (pageScan offset (some l) page seen coll).1.isEmpty
          then (st, 0)
          else stBulkInsert st ((pageScan offset (some l) page seen coll).1.map
            fun s => (s.message_id, s.thread_id)) label).2)
        (pr + 1)
        (collAcc ++ (pageScan offset (some l) page seen coll).1)
        ((if (pageScan offset (some l) page seen coll).1.isEmpty
          then (st, 0)
          else stBulkInsert st ((pageScan offset (some l) page seen coll).1.map
            fun s => (s.message_id, s.thread_id)) label).1)
        p1 q2
      refine ⟨?_, ?_, ?_⟩
      · rw [r1, List.length_append, p2, htot]
        omega
      · rw [List.length_cons]
        omega
      · intro k hk
        cases k with
        | zero =>
          have ht1 : (((page :: rest).take 1).map List.length).sum = page.length := by
            simp
          rw [ht1, ← q1]
          omega
        | succ k2 =>
          have hk2 := r3 k2 (by omega)
          have ht2 : (((page :: rest).take (k2 + 1 + 1)).map List.length).sum
              = page.length + ((rest.take (k2 + 1)).map List.length).sum := by
            simp [List.take_succ_cons]
          rw [ht2, ← Nat.add_assoc, ← q1]
          exact hk2

/-- C5 (amended): for every positive `limit`, discovery collects (post-
offset, pre-limit, across page boundaries) exactly
`min limit (totalAvailable - offset)` stubs — which equals the claim's
"min(limit, totalAvailable - offset) when totalAvailable > offset, else 0"
since the subtraction is truncated — and it never requests a page after the
limit is reached: if the `(k+2)`-th page was requested, the first `k+1`
pages' post-offset stubs had not reached the limit.  (`limit = 0` is NOT
"collect nothing": the ≥-limit checks run only after a stub is collected /
after a page, see the counterexample.) -/
theorem C5_discovery_offset_limit (pages : List (List MessageStub)) (l offset : Nat)
    (label : String) (st : StageState) (hl : 1 ≤ l) :
    (run_discovery label (pages.map Except.ok) (some l) offset st).collected.length
        = min l (pagesTotal pages - offset) ∧
      (run_discovery label (pages.map Except.ok) (some l) offset st).pagesRequested
        ≤ pages.length ∧
      (∀ k, k + 1 < (run_discovery label (pages.map Except.ok) (some l) offset
          st).pagesRequested →
        ((pages.take (k + 1)).map List.length).sum - offset < l) := by
  obtain ⟨h1, h2, h3⟩ := discoveryGo_count label l offset pages 0 0 0 0 []
    (setStage st "discovery") (by omega) (by omega)
  refine ⟨?_, by simpa using h2, ?_⟩
  · show (discoveryGo label (some l) offset (pages.map Except.ok) 0 0 0 0 []
        (setStage st "discovery")).collected.length = _
    rw [h1]
    simp
  · intro k hk
    have := h3 k (by simpa using hk)
    simpa using this

/-- Counterexample to C5 as stated: with `limit = 0` (a non-negative limit
the CLI accepts) and one page of one stub, the claim demands
`min(0, 1 - 0) = 0` collected stubs, but the stage collects 1 — the
`total_collected >= limit` check runs only after appending. -/
theorem C5_counterexample :
    (run_discovery "INBOX" [Except.ok [⟨"a", "t"⟩]] (some 0) 0
        initState).collected.length = 1 ∧
      (1 : Nat) ≠ min 0 (pagesTotal [[(⟨"a", "t"⟩ : MessageStub)]] - 0) :=
  ⟨rfl, by decide⟩

/-- Witness for the amended C5: two pages of 2 and 1 stubs, `offset = 1`,
`limit = 2` collects exactly `min 2 (3 - 1) = 2` stubs. -/
theorem C5_witness :
    (run_discovery "INBOX" ([[⟨"a", "t1"⟩, ⟨"b", "t2"⟩], [⟨"c", "t3"⟩]].map Except.ok)
        (some 2) 1 initState).collected.length
      = min 2 (pagesTotal [[⟨"a", "t1"⟩, ⟨"b", "t2"⟩], [⟨"c", "t3"⟩]] - 1) :=
  (C5_discovery_offset_limit [[⟨"a", "t1"⟩, ⟨"b", "t2"⟩], [⟨"c", "t3"⟩]] 2 1 "INBOX"
    initState (by decide)).1

/-! ## Full-run error handling -/

/-- The per-message fetch step never touches the audit table. -/
theorem processOne_runs (acc : StageState × List String × Nat) (raw : RawMessage) :
    (processOne acc raw).1.runs = acc.1.runs := by
  obtain ⟨rid, ro⟩ := raw
  cases ro with
  | ok meta => rfl
  | error e => rfl

/-- The batch's per-message loop never touches the audit table. -/
theorem processRaws_runs :
    ∀ (raws : List RawMessage) (acc : StageState × List String × Nat),
      (raws.foldl processOne acc).1.runs = acc.1.runs := by
  intro raws
  induction raws with
  | nil => intro acc; rfl
  | cons raw rest ih =>
    intro acc
    rw [List.foldl_cons, ih (processOne acc raw), processOne_runs]

/-- The leftover marking never touches the audit table. -/
theorem markLeftover_runs (fids : List String) (st : StageState) (mid : String) :
    (markLeftover fids st mid).runs = st.runs := by
  unfold markLeftover
  split
  · rfl
  · split
    · rfl
    · split
      · rfl
      · rfl

/-- The leftover loop never touches the audit table. -/
theorem markLeftovers_runs :
    ∀ (pending : List String) (st : StageState) (fids : List String),
      (markLeftovers st pending fids).runs = st.runs := by
  intro pending
  induction pending with
  | nil => intro st fids; rfl
  | cons h t ih =>
    intro st fids
    show (markLeftovers (markLeftover fids st h) t fids).runs = st.runs
    rw [ih, markLeftover_runs]

/-- The fetch loop never touches the audit table. -/
theorem fetchLoop_runs (attempts : Nat → Nat → BatchAttemptOutcome) (mr : Nat)
    (limit : Option Nat) (offset batchSize : Nat) :
    ∀ (fuel callIdx tf : Nat) (st : StageState),
      (fetchLoop attempts mr limit offset batchSize fuel callIdx tf st).1.runs
        = st.runs := by
  intro fuel
  induction fuel with
  | zero => intro _ _ st; rfl
  | succ fuel ih =>
    intro callIdx tf st
    simp only [fetchLoop]
    split
    · rfl
    · split
      · rfl
      · split
        · rfl
        · rename_i raws heq
          rw [ih, markLeftovers_runs]
          exact processRaws_runs raws (st, [], tf)

/-- The per-id convert step never touches the audit table. -/
theorem convertOne_runs (fs : String → Option String)
    (extract : String → Option (Option String)) (parseIso : String → Option PyDateTime)
    (nfkd : String → String) (mdDir : String) (acc : StageState × Nat) (mid : String) :
    (convertOne fs extract parseIso nfkd mdDir acc mid).1.runs = acc.1.runs := by
  simp only [convertOne]
  split
  · rfl
  · split
    · rfl
    · rfl

/-- The convert batch fold never touches the audit table. -/
theorem convertFold_runs (fs : String → Option String)
    (extract : String → Option (Option String)) (parseIso : String → Option PyDateTime)
    (nfkd : String → String) (mdDir : String) :
    ∀ (fids : List String) (acc : StageState × Nat),
      (fids.foldl (convertOne fs extract parseIso nfkd mdDir) acc).1.runs
        = acc.1.runs := by
  intro fids
  induction fids with
  | nil => intro acc; rfl
  | cons mid rest ih =>
    intro acc
    rw [List.foldl_cons, ih, convertOne_runs]

/-- The convert loop never touches the audit table. -/
theorem convertLoop_runs (fs : String → Option String)
    (extract : String → Option (Option String)) (parseIso : String → Option PyDateTime)
    (nfkd : String → String) (mdDir : String) (limit : Option Nat)
    (offset batchSize : Nat) :
    ∀ (fuel tc : Nat) (st : StageState),
      (convertLoop fs extract parseIso nfkd mdDir limit offset batchSize fuel tc
        st).1.runs = st.runs := by
  intro fuel
  induction fuel with
  | zero => intro _ st; rfl
  | succ fuel ih =>
    intro tc st
    simp only [convertLoop]
    split
    · rfl
    · split
      · rfl
      · rw [ih, convertFold_runs]

/-- The discovery loop never touches the audit table. -/
theorem discoveryGo_runs (label : String) (limit : Option Nat) (offset : Nat) :
    ∀ (pages : List (Except ClientError (List MessageStub)))
      (seen coll tn pr : Nat) (collAcc : List MessageStub) (st : StageState),
      (discoveryGo label limit offset pages seen coll tn pr collAcc st).state.runs
        = st.runs := by
  intro pages
  induction pages with
  | nil => intro _ _ _ _ _ st; rfl
  | cons pg rest ih =>
    intro seen coll tn pr collAcc st
    cases pg with
    | error e => rfl
    | ok page =>
      simp only [discoveryGo]
      have hstep : (if (pageScan offset limit page seen coll).1.isEmpty
          then (st, 0)
          else stBulkInsert st ((pageScan offset limit page seen coll).1.map
            fun s => (s.message_id, s.thread_id)) label).1.runs = st.runs := by
        split
        · rfl
        · rfl
      split
      · exact hstep
      · rw [ih]
        exact hstep

/-- The run branch taken when a page request raises out of discovery. -/
theorem runPipeline_raised (label : String)
    (pages : List (Except ClientError (List MessageStub)))
    (attempts : Nat → Nat → BatchAttemptOutcome) (maxRetries : Nat)
    (fs : String → Option String) (extract : String → Option (Option String))
    (parseIso : String → Option PyDateTime) (nfkd : String → String) (mdDir : String)
    (limit : Option Nat) (offset batchSize : Nat) (st : StageState) (e : ClientError)
    (he : (run_discovery label pages limit offset
      { (start_run st label).1 with progress := { current_stage := "discovery" } }).raised
        = some e) :
    runPipeline label pages attempts maxRetries fs extract parseIso nfkd mdDir limit
        offset batchSize st
      = (.error e,
        complete_run (setStage (run_discovery label pages limit offset
            { (start_run st label).1 with
              progress := { current_stage := "discovery" } }).state
          ("error: " ++ e.text)) (start_run st label).2) := by
  simp only [runPipeline]
  split
  · rename_i e2 heq
    rw [he] at heq
    obtain rfl : e = e2 := Option.some.inj heq
    rfl
  · rename_i heq
    rw [he] at heq
    exact Option.noConfusion heq

/-- The run branch taken when discovery completes without raising. -/
theorem runPipeline_completed (label : String)
    (pages : List (Except ClientError (List MessageStub)))
    (attempts : Nat → Nat → BatchAttemptOutcome) (maxRetries : Nat)
    (fs : String → Option String) (extract : String → Option (Option String))
    (parseIso : String → Option PyDateTime) (nfkd : String → String) (mdDir : String)
    (limit : Option Nat) (offset batchSize : Nat) (st : StageState)
    (he : (run_discovery label pages limit offset
      { (start_run st label).1 with progress := { current_stage := "discovery" } }).raised
        = none) :
    runPipeline label pages attempts maxRetries fs extract parseIso nfkd mdDir limit
        offset batchSize st
      = (.ok (setStage (run_convert_pending fs extract parseIso nfkd mdDir none 0
            batchSize (run_fetch_pending attempts maxRetries none 0 batchSize
              (run_discovery label pages limit offset
                { (start_run st label).1 with
                  progress := { current_stage := "discovery" } }).state).1).1
          "complete").progress,
        complete_run (setStage (run_convert_pending fs extract parseIso nfkd mdDir none 0
            batchSize (run_fetch_pending attempts maxRetries none 0 batchSize
              (run_discovery label pages limit offset
                { (start_run st label).1 with
                  progress := { current_stage := "discovery" } }).state).1).1
          "complete") (start_run st label).2) := by
  simp only [runPipeline]
  split
  · rename_i e2 heq
    rw [he] at heq
    exact Option.noConfusion heq
  · rfl

/-- `complete_run` finalizes an audit row present in the table. -/
theorem complete_run_finalizes (stF : StageState) (run_id : Nat) (row : FetchRun)
    (hmem : row ∈ stF.runs) (hid : row.run_id = run_id) :
    auditFinalized (complete_run stF run_id) run_id := by
  refine ⟨{ row with
      completed_at := some stF.clock
      ids_discovered := stF.progress.ids_discovered
      messages_fetched := stF.progress.messages_fetched
      messages_converted := stF.progress.messages_converted
      messages_failed := stF.progress.messages_failed }, ?_, hid, by simp, rfl, rfl, rfl, rfl⟩
  have h1 := List.mem_map_of_mem (fun r =>
    if r.run_id = run_id then
      { r with
        completed_at := some stF.clock
        ids_discovered := stF.progress.ids_discovered
        messages_fetched := stF.progress.messages_fetched
        messages_converted := stF.progress.messages_converted
        messages_failed := stF.progress.messages_failed }
    else r) hmem
  have h2 : (if row.run_id = run_id then
      { row with
        completed_at := some stF.clock
        ids_discovered := stF.progress.ids_discovered
        messages_fetched := stF.progress.messages_fetched
        messages_converted := stF.progress.messages_converted
        messages_failed := stF.progress.messages_failed }
    else row) ∈ (complete_run stF run_id).runs := h1
  rw [if_pos hid] at h2
  exact h2

/-- C3 (amended): an adapter error raised inside the DISCOVERY stage does
behave as claimed — `run` sets the stage marker to `"error: <msg>"`, still
finalizes the audit run record with the counters accumulated so far, and
re-raises the error to its caller.  But an adapter error inside the FETCH
stage's batch call does not: `run_fetch_pending` catches
`GmailIngestorError`, logs it and merely breaks its loop, so the run then
proceeds to the convert stage and completes normally (`"complete"`, the
result is `.ok`) — the error is absorbed inside the stage and never reaches
the top-level `run` (see the counterexample). -/
theorem C3_run_error_handling (label : String)
    (pages : List (Except ClientError (List MessageStub)))
    (attempts : Nat → Nat → BatchAttemptOutcome) (maxRetries : Nat)
    (fs : String → Option String) (extract : String → Option (Option String))
    (parseIso : String → Option PyDateTime) (nfkd : String → String) (mdDir : String)
    (limit : Option Nat) (offset batchSize : Nat) (st : StageState) :
    (∀ e, (run_discovery label pages limit offset
        { (start_run st label).1 with progress := { current_stage := "discovery" } }).raised
          = some e →
      (runPipeline label pages attempts maxRetries fs extract parseIso nfkd mdDir limit
          offset batchSize st).1 = .error e ∧
        (runPipeline label pages attempts maxRetries fs extract parseIso nfkd mdDir limit
          offset batchSize st).2.progress.current_stage = "error: " ++ e.text ∧
        auditFinalized (runPipeline label pages attempts maxRetries fs extract parseIso
          nfkd mdDir limit offset batchSize st).2 (start_run st label).2) ∧
      ((run_discovery label pages limit offset
          { (start_run st label).1 with progress := { current_stage := "discovery" } }).raised
            = none →
        (∃ p, (runPipeline label pages attempts maxRetries fs extract parseIso nfkd mdDir
          limit offset batchSize st).1 = .ok p) ∧
          (runPipeline label pages attempts maxRetries fs extract parseIso nfkd mdDir
            limit offset batchSize st).2.progress.current_stage = "complete" ∧
          auditFinalized (runPipeline label pages attempts maxRetries fs extract parseIso
            nfkd mdDir limit offset batchSize st).2 (start_run st label).2) := by
  constructor
  · intro e he
    rw [runPipeline_raised label pages attempts maxRetries fs extract parseIso nfkd mdDir
      limit offset batchSize st e he]
    refine ⟨rfl, rfl, ?_⟩
    apply complete_run_finalizes _ _
      (⟨st.runs.length + 1, label, st.clock, none, 0, 0, 0, 0⟩ : FetchRun)
    · show (⟨st.runs.length + 1, label, st.clock, none, 0, 0, 0, 0⟩ : FetchRun)
          ∈ (run_discovery label pages limit offset
            { (start_run st label).1 with
              progress := { current_stage := "discovery" } }).state.runs
      unfold run_discovery
      rw [discoveryGo_runs]
      exact List.mem_append_right _ (List.mem_singleton_self _)
    · rfl
  · intro he
    rw [runPipeline_completed label pages attempts maxRetries fs extract parseIso nfkd
      mdDir limit offset batchSize st he]
    refine ⟨⟨_, rfl⟩, rfl, ?_⟩
    apply complete_run_finalizes _ _
      (⟨st.runs.length + 1, label, st.clock, none, 0, 0, 0, 0⟩ : FetchRun)
    · show (⟨st.runs.length + 1, label, st.clock, none, 0, 0, 0, 0⟩ : FetchRun)
          ∈ (run_convert_pending fs extract parseIso
          nfkd mdDir none 0 batchSize (run_fetch_pending attempts maxRetries none 0
            batchSize (run_discovery label pages limit offset
              { (start_run st label).1 with
                progress := { current_stage := "discovery" } }).state).1).1.runs
      unfold run_convert_pending
      rw [convertLoop_runs]
      show _ ∈ (run_fetch_pending attempts maxRetries none 0 batchSize
        (run_discovery label pages limit offset
          { (start_run st label).1 with
            progress := { current_stage := "discovery" } }).state).1.runs
      unfold run_fetch_pending
      rw [fetchLoop_runs]
      show _ ∈ (run_discovery label pages limit offset
        { (start_run st label).1 with
          progress := { current_stage := "discovery" } }).state.runs
      unfold run_discovery
      rw [discoveryGo_runs]
      exact List.mem_append_right _ (List.mem_singleton_self _)
    · rfl

/-- Counterexample to C3 as stated: a run whose fetch stage exhausts its
rate-limit retries (the transport oracle rate-limits every attempt, so the
batch call raises `RateLimitError`).  The claim demands an error stage
marker and a re-raised exception; instead the run returns `.ok` with stage
marker `"complete"` — the error was absorbed inside `run_fetch_pending`
(the record for `"a"` is simply left `pending`). -/
theorem C3_counterexample :
    (runPipeline "INBOX" [.ok [⟨"a", "t"⟩]]
        (fun _ _ => .transportError true "429 rate limit") 2 (fun _ => none)
        (fun _ => some none) (fun _ => none) (fun s => s) "md" none 0 100 initState).1
      = .ok { ids_discovered := 1, current_stage := "complete" } ∧
      (runPipeline "INBOX" [.ok [⟨"a", "t"⟩]]
        (fun _ _ => .transportError true "429 rate limit") 2 (fun _ => none)
        (fun _ => some none) (fun _ => none) (fun s => s) "md" none 0 100
        initState).2.progress.current_stage = "complete" := by
  exact ⟨rfl, rfl⟩

/-- Witness for the amended C3: a concrete discovery-stage `RateLimitError`
propagates with the error marker and a finalized audit row. -/
theorem C3_witness :
    (runPipeline "INBOX" [.error (.rateLimitError "boom")]
        (fun _ _ => .transportError true "429") 2 (fun _ => none) (fun _ => some none)
        (fun _ => none) (fun s => s) "md" none 0 100 initState).1
      = .error (.rateLimitError "boom") ∧
      (runPipeline "INBOX" [.error (.rateLimitError "boom")]
        (fun _ _ => .transportError true "429") 2 (fun _ => none) (fun _ => some none)
        (fun _ => none) (fun s => s) "md" none 0 100
        initState).2.progress.current_stage = "error: boom" ∧
      auditFinalized (runPipeline "INBOX" [.error (.rateLimitError "boom")]
        (fun _ _ => .transportError true "429") 2 (fun _ => none) (fun _ => some none)
        (fun _ => none) (fun s => s) "md" none 0 100 initState).2 1 := by
  have h := (C3_run_error_handling "INBOX" [.error (.rateLimitError "boom")]
    (fun _ _ => .transportError true "429") 2 (fun _ => none) (fun _ => some none)
    (fun _ => none) (fun s => s) "md" none 0 100 initState).1
    (.rateLimitError "boom") rfl
  exact ⟨h.1, h.2.1, h.2.2⟩

end GmailIngestor
